import Mathlib

/-!
Verification development for the chromatic-e2e core:
* `src/resource-archive/index.ts` — the CDP request-interception `Watcher`
  (archive map, `requestPaused` classifier, `clientSend`, `idle` race);
* `src/write-archive/dom-snapshot.ts` — the `DOMSnapshot` rewriter
  (`CSS_URL_REGEX`, `mapCssUrls`, `mapNode`, `mapNodeAttributes`,
  `mapTextElement`).

The TypeScript is embedded shallowly: JS strings become `String`/`List Char`,
the JS regex `String.prototype.replace` scan is modelled by an explicit
backtracking matcher for the one regex the source uses, records become
functions/association lists, and the async handler becomes a pure step
function taking an oracle for the outcomes of remote-client commands.
-/

/- ### Character helpers for the regex /url\((?!['"]?(?:data):)['"]?([^'")]*)['"]?\)/gi -/

/-- Case-insensitive comparison of a char against a lower/upper pair,
    mirroring the `i` flag on an ASCII literal. -/
def ciIs (c lo hi : Char) : Bool := c == lo || c == hi

/-- A CSS quote character, the class `['"]`. -/
def isQuoteC (c : Char) : Bool := c == '\'' || c == '"'

/-- Characters admitted by the capture group `[^'")]*`. -/
def groupOk (c : Char) : Bool := !(c == '\'' || c == '"' || c == ')')

/-- Does the text start with `data:` (case-insensitive on the letters),
    the body of the lookahead alternative `(?:data):`. -/
def startsDataColon : List Char → Bool
  | d :: a :: t :: a2 :: col :: _ =>
    ciIs d 'd' 'D' && ciIs a 'a' 'A' && ciIs t 't' 'T' && ciIs a2 'a' 'A' && col == ':'
  | _ => false

/-- The lookahead body `['"]?(?:data):` succeeds at `rest` (greedy optional
    quote first, then the backtracked empty alternative). -/
def lookaheadData (rest : List Char) : Bool :=
  match rest with
  | c :: tl => if isQuoteC c then startsDataColon tl || startsDataColon rest
               else startsDataColon rest
  | [] => false

/-- Match `['"]?\)` at the given position; returns the consumed length.
    Greedy: a quote followed by `)` is preferred, else a bare `)`. -/
def tryClose : List Char → Option Nat
  | [] => none
  | c :: tl =>
    if isQuoteC c then
      match tl with
      | c2 :: _ => if c2 == ')' then some 2 else none
      | [] => none
    else if c == ')' then some 1 else none

/-- Try the capture group at length `len`, backtracking downwards, then
    `['"]?\)`; returns consumed length (group + close) and the group. -/
def matchGroupLen (chars : List Char) : Nat → Option (Nat × List Char)
  | 0 =>
    match tryClose chars with
    | some k => some (k, [])
    | none => none
  | len + 1 =>
    match tryClose (chars.drop (len + 1)) with
    | some k => some (len + 1 + k, chars.take (len + 1))
    | none => matchGroupLen chars len

/-- Match `['"]?([^'")]*)['"]?\)` at the given position with the regex's
    greedy/backtracking order; returns consumed length and the group. -/
def matchTail (rest : List Char) : Option (Nat × List Char) :=
  let noQuote := matchGroupLen rest (rest.takeWhile groupOk).length
  match rest with
  | c :: tl =>
    if isQuoteC c then
      match matchGroupLen tl (tl.takeWhile groupOk).length with
      | some (n, g) => some (n + 1, g)
      | none => noQuote
    else noQuote
  | [] => none

/-- Attempt the whole regex `url\((?!['"]?(?:data):)['"]?([^'")]*)['"]?\)`
    (case-insensitive) at the start of the list; returns the full match
    length and the captured group. -/
def matchUrlAt : List Char → Option (Nat × List Char)
  | u :: r :: l :: p :: rest =>
    if ciIs u 'u' 'U' && ciIs r 'r' 'R' && ciIs l 'l' 'L' && p == '(' &&
       !(lookaheadData rest) then
      match matchTail rest with
      | some (n, g) => some (4 + n, g)
      | none => none
    else none
  | _ => none

/-- One segment of the scanned text: either a literal character that is part
    of no match, or a whole match together with its captured group. -/
inductive CssSeg where
  | lit (c : Char)
  | mtch (full : List Char) (group : List Char)
deriving DecidableEq, Repr

/-- The global scan of `String.prototype.replace` with the `g` flag: find the
    leftmost match at or after the current position, emit it, resume after
    its end.  Structured with a step budget so that it computes by structural
    recursion; every step consumes at least one character (the regex never
    matches the empty string), so a budget of the text's length is exact. -/
def cssScanF : Nat → List Char → List CssSeg
  | 0, l => l.map .lit
  | _ + 1, [] => []
  | fuel + 1, c :: tl =>
    match matchUrlAt (c :: tl) with
    | some (n, g) => .mtch ((c :: tl).take n) g :: cssScanF fuel ((c :: tl).drop n)
    | none => .lit c :: cssScanF fuel tl

/-- The whole-text scan. -/
def cssScan (l : List Char) : List CssSeg := cssScanF l.length l

/-- The text a segment stands for. -/
def segText : CssSeg → List Char
  | .lit c => [c]
  | .mtch full _ => full

/-- Flatten segments back to text. -/
def segsFlatten (segs : List CssSeg) : List Char :=
  segs.foldr (fun s acc => segText s ++ acc) []

/- ### JS `String.prototype.replace(searchString, replacement)` -/

/-- First index at which `pat` occurs in `s` (JS `indexOf`); the empty
    pattern occurs at index 0. -/
def listFirstIdx : List Char → List Char → Option Nat
  | s, pat =>
    if pat.isPrefixOf s then some 0
    else match s with
         | [] => none
         | _ :: tl => (listFirstIdx tl pat).map (· + 1)

/-- ECMAScript GetSubstitution for a string search value (no captures):
    `$$` is a dollar, `$&` the matched substring, a backquote-dollar the
    text before the match, an apostrophe-dollar the text after; any other
    dollar sequence is literal. -/
def getSubst (matched pre post : List Char) : List Char → List Char
  | [] => []
  | '$' :: c :: tl =>
    if c == '$' then '$' :: getSubst matched pre post tl
    else if c == '&' then matched ++ getSubst matched pre post tl
    else if c == '`' then pre ++ getSubst matched pre post tl
    else if c == '\'' then post ++ getSubst matched pre post tl
    else '$' :: getSubst matched pre post (c :: tl)
  | c :: tl => c :: getSubst matched pre post tl

/-- JS `s.replace(pat, repl)` with string arguments: substitute the first
    occurrence of `pat` only, applying GetSubstitution to `repl`. -/
def replaceFirstJS (s pat repl : List Char) : List Char :=
  match listFirstIdx s pat with
  | none => s
  | some i =>
    s.take i ++ getSubst pat (s.take i) (s.drop (i + pat.length)) repl
      ++ s.drop (i + pat.length)

/- ### `DOMSnapshot.mapCssUrls` -/

/-- A JS `Map<string, string>` (and likewise a source-map object), as an
    association list with first-binding lookup. -/
abbrev SMap := List (String × String)

/-- The replacer callback of `mapCssUrls`: given the whole match and the
    captured URL token, replace the token (first occurrence, JS `replace`)
    with its mapped value when the map has the token, else keep the match. -/
def cssCallback (m : SMap) (full group : List Char) : List Char :=
  match List.lookup (String.mk group) m with
  | some v => replaceFirstJS full group v.toList
  | none => full

/-- Join the scanned segments, applying the replacer to every match. -/
def cssSegsJoin (m : SMap) (segs : List CssSeg) : List Char :=
  segs.foldr (fun s acc =>
    (match s with
     | .lit c => [c]
     | .mtch full g => cssCallback m full g) ++ acc) []

/-- `DOMSnapshot.mapCssUrls`: `cssText.replace(CSS_URL_REGEX, callback)`. -/
def mapCssUrls (m : SMap) (cssText : String) : String :=
  String.mk (cssSegsJoin m (cssScan cssText.toList))

/- ### Serialized snapshot nodes (`serializedNodeWithId`, rrweb NodeType) -/

/-- A serialized rrweb snapshot node with its stable id.  `Document` and
    `Element` carry ordered children (`'childNodes' in node`); `Text` carries
    `textContent` and the `isStyle` flag; the remaining rrweb node kinds are
    carried opaquely. -/
inductive SNode where
  | document (id : Nat) (childNodes : List SNode)
  | documentType (id : Nat) (name publicId systemId : String)
  | element (id : Nat) (tagName : String) (attributes : List (String × String))
      (childNodes : List SNode)
  | text (id : Nat) (textContent : String) (isStyle : Bool)
  | cdata (id : Nat) (textContent : String)
  | comment (id : Nat) (textContent : String)

/-- Lookup of a JS object property on the attributes record. -/
def getAttr (attrs : List (String × String)) (name : String) : Option String :=
  List.lookup name attrs

/-- JS property assignment on the attributes record: overwrite in place if
    the key exists, else append. -/
def setAttr : List (String × String) → String → String → List (String × String)
  | [], n, v => [(n, v)]
  | (k, w) :: tl, n, v =>
    if k == n then (k, v) :: tl else (k, w) :: setAttr tl n v

/-- Truthiness of `node.attributes.x` for a string-valued attribute:
    present and non-empty. -/
def truthyAttr (attrs : List (String × String)) (name : String) : Option String :=
  match getAttr attrs name with
  | some v => if v == "" then none else some v
  | none => none

/-- The `src` step of `mapNodeAttributes`: on a truthy `src` attribute that
    is a key of the source map, overwrite it with the mapped value. -/
def mapSrcAttr (m : SMap) (attrs : List (String × String)) :
    List (String × String) :=
  match truthyAttr attrs "src" with
  | some sourceVal =>
    match List.lookup sourceVal m with
    | some v => setAttr attrs "src" v
    | none => attrs
  | none => attrs

/-- The `style`/`_cssText` step of `mapNodeAttributes`: on a truthy value
    for the given key, run `mapCssUrls` over it and write it back. -/
def mapCssAttr (m : SMap) (key : String) (attrs : List (String × String)) :
    List (String × String) :=
  match truthyAttr attrs key with
  | some cssText => setAttr attrs key (mapCssUrls m cssText)
  | none => attrs

/-- The attribute rewriting inside `mapNodeAttributes` for an Element's
    attribute record: `src` via an exact source-map hit, then `style` and
    `_cssText` through `mapCssUrls`, in source order. -/
def mapAttrs (m : SMap) (attrs : List (String × String)) : List (String × String) :=
  mapCssAttr m "_cssText" (mapCssAttr m "style" (mapSrcAttr m attrs))

/-- `DOMSnapshot.mapNodeAttributes`: rewrite `src`, `style`, `_cssText` on
    Element nodes, leave every other node untouched. -/
def mapNodeAttributes (m : SMap) : SNode → SNode
  | .element i t attrs cs => .element i t (mapAttrs m attrs) cs
  | n => n

/-- `DOMSnapshot.mapTextElement`: rewrite the text content of a style-flagged
    Text node through `mapCssUrls` when the content is truthy. -/
def mapTextElement (m : SMap) : SNode → SNode
  | .text i content isStyle =>
    if isStyle && !(content == "") then .text i (mapCssUrls m content) isStyle
    else .text i content isStyle
  | n => n

/-- `DOMSnapshot.mapNode`: apply `mapNodeAttributes` then `mapTextElement`
    to the node itself, then replace `childNodes` (when the node has them)
    by the recursively mapped children, in order. -/
def mapNode (m : SMap) : SNode → SNode
  | .document i cs =>
    match h : mapTextElement m (mapNodeAttributes m (.document i cs)) with
    | .document i2 cs2 => .document i2 (cs2.attach.map (fun c => mapNode m c.1))
    | n => n
  | .element i t attrs cs =>
    match h : mapTextElement m (mapNodeAttributes m (.element i t attrs cs)) with
    | .element i2 t2 a2 cs2 => .element i2 t2 a2 (cs2.attach.map (fun c => mapNode m c.1))
    | n => n
  | n => mapTextElement m (mapNodeAttributes m n)
termination_by n => sizeOf n
decreasing_by
  · simp only [mapNodeAttributes, mapTextElement] at h
    cases h
    have hm := List.sizeOf_lt_of_mem c.2
    simp only [SNode.document.sizeOf_spec]
    omega
  · simp only [mapNodeAttributes, mapTextElement] at h
    cases h
    have hm := List.sizeOf_lt_of_mem c.2
    simp only [SNode.element.sizeOf_spec]
    omega

/- ### The resource-archive Watcher -/

/-- The parts of a WHATWG `URL` object the Watcher reads: `origin`
    (protocol+host+port) and `toString()` (the normalized href). -/
structure UrlParts where
  origin : String
  normalized : String
deriving DecidableEq, Repr

/-- A `Protocol.Fetch.HeaderEntry`. -/
structure HeaderEntry where
  name : String
  value : String
deriving DecidableEq, Repr

/-- A `Fetch.requestPaused` event payload: request id, `request.url`,
    `request.method`, and the optional response-phase fields. -/
structure RPEvent where
  requestId : String
  url : String
  method : String
  responseStatusCode : Option Nat
  responseStatusText : Option String
  responseErrorReason : Option String
  responseHeaders : Option (List HeaderEntry)
deriving DecidableEq, Repr

/-- Result of `Fetch.getResponseBody`. -/
structure BodyResult where
  body : String
  base64Encoded : Bool
deriving DecidableEq, Repr

/-- `Buffer.from(body, base64Encoded ? 'base64' : 'utf8')`, kept abstract as
    the pair of raw body text and encoding flag (the decoding itself is a
    Node library call outside this repository). -/
structure Buf where
  data : String
  wasBase64 : Bool
deriving DecidableEq, Repr

/-- `ArchiveResponse`: the captured variant
    `{statusCode, statusText?, body, contentType?}` or the failure variant
    `{error}` (errors modelled as their message strings). -/
inductive ArchiveResponse where
  | captured (statusCode : Nat) (statusText : Option String) (body : Buf)
      (contentType : Option String)
  | failed (error : String)
deriving DecidableEq, Repr

/-- The mutable Watcher state: the `archive` record (URL → ArchiveResponse)
    and the lazily initialized `firstUrl`. -/
structure WatcherState where
  archive : String → Option ArchiveResponse
  firstUrl : Option UrlParts

/-- Immutable Watcher configuration: the URL parser (abstracting `new URL`)
    and `allowedArchiveOrigins`. -/
structure WatcherCfg where
  parse : String → UrlParts
  allowedOrigins : List String

/-- The constructor's origin list: `(allowedDomains || []).map(d => "https://" + d)`. -/
def mkAllowedOrigins (allowedDomains : List String) : List String :=
  allowedDomains.map (fun d => "https://" ++ d)

/-- Diagnostic log lines the Watcher emits. -/
inductive LogEntry where
  | clientError (url : String) (error : String)
  | requestPausedInfo (url : String) (phase : String) (first : String) (allowed : Bool)
  | responseError (reason : String)
deriving DecidableEq, Repr

/-- Remote-client commands the handler can issue for an exchange. -/
inductive SentCommand where
  | continueRequest (requestId : String) (interceptResponse : Bool)
  | getResponseBody (requestId : String)
deriving DecidableEq, Repr

/-- Environment oracle for one handler invocation: the transport outcome of
    the (at most one) `Fetch.continueRequest` and of the (at most one)
    `Fetch.getResponseBody` the handler may issue. -/
structure Outcomes where
  continueResult : Except String Unit
  bodyResult : Except String BodyResult
deriving Repr

/-- Everything one `requestPaused` invocation produces: the state after the
    handler ran, the commands it issued in order, its log lines, and an
    uncaught exception when it threw. -/
structure StepOut where
  state : WatcherState
  cmds : List SentCommand
  logs : List LogEntry
  thrown : Option String

/-- `this.archive[url] = response` on the record-as-function. -/
def updateArchive (a : String → Option ArchiveResponse) (url : String)
    (r : ArchiveResponse) : String → Option ArchiveResponse :=
  fun k => if k = url then some r else a k

/-- `Watcher.clientSend`: forward the command result; on failure log
    `Client error`, record `{error}` under `request.url`, and yield `null`. -/
def clientSendResult {α : Type} (s : WatcherState) (url : String)
    (res : Except String α) : WatcherState × Option α × List LogEntry :=
  match res with
  | .ok a => (s, some a, [])
  | .error e =>
    ({ s with archive := updateArchive s.archive url (.failed e) }, none,
     [.clientError url e])

/-- Truthiness of `request.method.match(/get/i)`: the method contains the
    letters g-e-t consecutively in some letter case. -/
def hasGetSub : List Char → Bool
  | g :: e :: t :: rest =>
    (ciIs g 'g' 'G' && ciIs e 'e' 'E' && ciIs t 't' 'T') || hasGetSub (e :: t :: rest)
  | _ => false

/-- Truthiness of the optional string `responseErrorReason`. -/
def truthyStr : Option String → Bool
  | some s => !(s == "")
  | none => false

/-- Truthiness of the optional number `responseStatusCode`. -/
def truthyCode : Option Nat → Bool
  | some n => !(n == 0)
  | none => false

/-- `Watcher.setResponse`: direct archive write. -/
def setResponse (s : WatcherState) (url : String) (r : ArchiveResponse) :
    WatcherState :=
  { s with archive := updateArchive s.archive url r }

/-- `Watcher.requestPaused`, as a pure step function over the handler's
    control flow: non-GET and 304 exchanges continue unchanged; then
    `firstUrl ??= new URL(request.url)`; error-reason exchanges continue
    unchanged; a truthy status is either a redirect (continue with
    `interceptResponse: true`) or the capture branch (fetch body, find the
    content-type header on `responseHeaders` — throwing if that field is
    absent — write `Captured` when the origin is allowed and the URL is not
    `firstUrl`, then continue); with no truthy status the exchange continues
    with `interceptResponse: true` to pause again at the response phase. -/
def requestPaused (cfg : WatcherCfg) (s : WatcherState) (ev : RPEvent)
    (oc : Outcomes) : StepOut :=
  if !(hasGetSub ev.method.toList) then
    let r := clientSendResult s ev.url oc.continueResult
    ⟨r.1, [.continueRequest ev.requestId false], r.2.2, none⟩
  else if ev.responseStatusCode = some 304 then
    let r := clientSendResult s ev.url oc.continueResult
    ⟨r.1, [.continueRequest ev.requestId false], r.2.2, none⟩
  else
    let requestUrl := cfg.parse ev.url
    let firstUrl := s.firstUrl.getD requestUrl
    let s1 : WatcherState := { s with firstUrl := some firstUrl }
    let isAllowed := requestUrl.origin == firstUrl.origin ||
      cfg.allowedOrigins.contains requestUrl.origin
    let phase := if truthyCode ev.responseStatusCode ||
        truthyStr ev.responseErrorReason then "response" else "request"
    let lg0 : List LogEntry :=
      [.requestPausedInfo requestUrl.normalized phase firstUrl.normalized isAllowed]
    if truthyStr ev.responseErrorReason then
      let r := clientSendResult s1 ev.url oc.continueResult
      ⟨r.1, [.continueRequest ev.requestId false],
        lg0 ++ [.responseError (ev.responseErrorReason.getD "")] ++ r.2.2, none⟩
    else if truthyCode ev.responseStatusCode then
      if (ev.responseStatusCode.getD 0) ∈ [301, 302, 307, 308] then
        let r := clientSendResult s1 ev.url oc.continueResult
        ⟨r.1, [.continueRequest ev.requestId true], lg0 ++ r.2.2, none⟩
      else
        let rb := clientSendResult s1 ev.url oc.bodyResult
        match rb.2.1 with
        | none => ⟨rb.1, [.getResponseBody ev.requestId], lg0 ++ rb.2.2, none⟩
        | some bres =>
          match ev.responseHeaders with
          | none =>
            ⟨rb.1, [.getResponseBody ev.requestId], lg0 ++ rb.2.2,
              some "TypeError: responseHeaders is undefined"⟩
          | some hs =>
            let contentTypeHeader :=
              hs.find? (fun h => h.name.toList.map Char.toLower == "content-type".toList)
            let isFirstRequest := requestUrl.normalized == firstUrl.normalized
            let captured : ArchiveResponse :=
              .captured (ev.responseStatusCode.getD 0) ev.responseStatusText
                ⟨bres.body, bres.base64Encoded⟩
                (contentTypeHeader.map (fun h => h.value))
            let s2 := if isAllowed && !isFirstRequest then
                { rb.1 with archive := updateArchive rb.1.archive ev.url captured }
              else rb.1
            let rc := clientSendResult s2 ev.url oc.continueResult
            ⟨rc.1, [.getResponseBody ev.requestId, .continueRequest ev.requestId false],
              lg0 ++ rb.2.2 ++ rc.2.2, none⟩
    else
      let r := clientSendResult s1 ev.url oc.continueResult
      ⟨r.1, [.continueRequest ev.requestId true], lg0 ++ r.2.2, none⟩

/-- The Watcher's state right after `watch()`: empty archive, no `firstUrl`. -/
def initWatcher : WatcherState :=
  { archive := fun _ => none, firstUrl := none }

/-- Run a sequence of `requestPaused` invocations (each with its command
    oracle), threading the Watcher state. -/
def stepEvents (cfg : WatcherCfg) : WatcherState → List (RPEvent × Outcomes) → WatcherState
  | s, [] => s
  | s, (ev, oc) :: tl => stepEvents cfg (requestPaused cfg s ev oc).state tl

/- ### `Watcher.idle`: the global-timeout / network-idle race -/

/-- The scheduler events that can reach the two awaitables `idle` creates:
    the `setTimeout` callback firing, and the `waitForLoadState('networkidle')`
    promise resolving or rejecting. -/
inductive IdleEvent where
  | timerFires
  | netIdleResolves
  | netIdleRejects
deriving DecidableEq, Repr

/-- The observable state of one `idle()` call: whether the global timer is
    still armed, whether the `networkidle` wait is still pending, the settled
    outcome of the `Promise.race` (`none` while racing), and whether the
    global-timeout warning was logged. -/
structure IdleState where
  timerActive : Bool
  netPending : Bool
  settled : Option (Except String Unit)
  warned : Bool
deriving Repr

/-- State right after `idle()` set up its two promises. -/
def idleStart : IdleState :=
  { timerActive := true, netPending := true, settled := none, warned := false }

/-- One scheduler step.  The timer callback logs the warning and resolves
    the timeout promise; the `networkidle` promise's `finally` clears the
    timer on either settlement; `Promise.race` keeps its first settlement.
    An event whose awaitable is no longer live is a no-op (a cleared timer
    never fires; a settled promise never settles again). -/
def idleStep (s : IdleState) : IdleEvent → IdleState
  | .timerFires =>
    if s.timerActive then
      { timerActive := false, netPending := s.netPending,
        settled := s.settled.orElse (fun _ => some (.ok ())), warned := true }
    else s
  | .netIdleResolves =>
    if s.netPending then
      { timerActive := false, netPending := false,
        settled := s.settled.orElse (fun _ => some (.ok ())), warned := s.warned }
    else s
  | .netIdleRejects =>
    if s.netPending then
      { timerActive := false, netPending := false,
        settled := s.settled.orElse (fun _ => some (.error "waitForLoadState rejected")),
        warned := s.warned }
    else s

/-- Run `idle()` against a whole scheduler history. -/
def runIdle (evs : List IdleEvent) : IdleState :=
  evs.foldl idleStep idleStart

/- ### Concrete fixtures for witnesses and counterexamples -/

/-- A concrete `new URL` table for the URLs the examples use. -/
def demoParse : String → UrlParts := fun s =>
  if s = "https://example.com/" then
    ⟨"https://example.com", "https://example.com/"⟩
  else if s = "https://example.com/logo.png" then
    ⟨"https://example.com", "https://example.com/logo.png"⟩
  else if s = "https://cdn.other.test/font.woff2" then
    ⟨"https://cdn.other.test", "https://cdn.other.test/font.woff2"⟩
  else ⟨s, s⟩

/-- A Watcher constructed with no `allowedDomains`. -/
def demoCfg : WatcherCfg := ⟨demoParse, mkAllowedOrigins []⟩

/-- Oracle: both remote commands succeed, body `"IMG"`, not base64. -/
def ocOk : Outcomes := ⟨.ok (), .ok ⟨"IMG", false⟩⟩

/-- Oracle: `Fetch.continueRequest` fails transport-side. -/
def ocFailCont : Outcomes := ⟨.error "net::ERR_ABORTED", .ok ⟨"IMG", false⟩⟩

/-- Oracle: `Fetch.getResponseBody` fails transport-side. -/
def ocFailBody : Outcomes := ⟨.ok (), .error "No resource with given identifier"⟩

/-- First event: GET of the top-level page, 200. -/
def evMain : RPEvent :=
  ⟨"r1", "https://example.com/", "GET", some 200, some "OK", none,
    some [⟨"Content-Type", "text/html"⟩]⟩

/-- A same-origin image GET, 200 — but with method string `BUDGET`. -/
def evBudget : RPEvent :=
  ⟨"r2", "https://example.com/logo.png", "BUDGET", some 200, some "OK", none,
    some [⟨"Content-Type", "image/png"⟩]⟩

/-- A same-origin image GET, 200. -/
def evLogo : RPEvent :=
  ⟨"r2", "https://example.com/logo.png", "GET", some 200, some "OK", none,
    some [⟨"Content-Type", "image/png"⟩]⟩

/-- A GET answered with a 301 redirect. -/
def evRedirect : RPEvent :=
  ⟨"r1", "https://example.com/", "GET", some 301, some "Moved Permanently", none,
    some []⟩

/-- A POST to the page origin. -/
def evPost : RPEvent :=
  ⟨"r9", "https://example.com/api", "POST", some 200, some "OK", none, some []⟩

/-- A GET with `responseHeaders` absent on the response-phase pause. -/
def evNoHeaders : RPEvent :=
  ⟨"r3", "https://example.com/logo.png", "GET", some 200, some "OK", none, none⟩

/- ### Command metadata -/

/-- Whether the oracle makes a given issued command fail. -/
def cmdFailed (oc : Outcomes) : SentCommand → Bool
  | .continueRequest _ _ =>
    match oc.continueResult with
    | .ok _ => false
    | .error _ => true
  | .getResponseBody _ =>
    match oc.bodyResult with
    | .ok _ => false
    | .error _ => true

/-- The exchange a command addresses. -/
def cmdReqId : SentCommand → String
  | .continueRequest i _ => i
  | .getResponseBody i => i

/- ### Branch equations for `requestPaused` -/

/-- `firstUrl ??= new URL(request.url)` applied to the state. -/
def withFirst (cfg : WatcherCfg) (s : WatcherState) (ev : RPEvent) : WatcherState :=
  { s with firstUrl := some (s.firstUrl.getD (cfg.parse ev.url)) }

/-- `isRequestFromAllowedDomain` for the event, relative to the (possibly
    just-initialized) `firstUrl`. -/
def allowedB (cfg : WatcherCfg) (s : WatcherState) (ev : RPEvent) : Bool :=
  (cfg.parse ev.url).origin == (s.firstUrl.getD (cfg.parse ev.url)).origin ||
    cfg.allowedOrigins.contains (cfg.parse ev.url).origin

/-- The `requestPaused` diagnostic log line. -/
def infoLog (cfg : WatcherCfg) (s : WatcherState) (ev : RPEvent) : LogEntry :=
  .requestPausedInfo (cfg.parse ev.url).normalized
    (if truthyCode ev.responseStatusCode || truthyStr ev.responseErrorReason
      then "response" else "request")
    ((s.firstUrl.getD (cfg.parse ev.url)).normalized) (allowedB cfg s ev)

/-- The archive value the capture branch writes for the event. -/
def capturedOf (ev : RPEvent) (bres : BodyResult) (hs : List HeaderEntry) :
    ArchiveResponse :=
  .captured (ev.responseStatusCode.getD 0) ev.responseStatusText
    ⟨bres.body, bres.base64Encoded⟩
    ((hs.find? (fun h =>
        h.name.toList.map Char.toLower == "content-type".toList)).map
      (fun h => h.value))

/-- Whether the capture branch decides to write: allowed origin and not the
    first request. -/
def captureGuard (cfg : WatcherCfg) (s : WatcherState) (ev : RPEvent) : Bool :=
  allowedB cfg s ev &&
    !((cfg.parse ev.url).normalized ==
      (s.firstUrl.getD (cfg.parse ev.url)).normalized)

/-- Structural equivalence between an input node and its rewritten
    counterpart, as the spec demands it: identifiers, node kinds, tag names
    and the shape of the ordered child sequence are unchanged; on Elements
    every attribute other than `src`, `style`, `_cssText` looks up to the
    same value; Text content may differ only on style-flagged Text nodes;
    all other node kinds are exactly equal. -/
inductive StructOk : SNode → SNode → Prop where
  | document {i : Nat} {cs cs' : List SNode} :
      List.Forall₂ StructOk cs cs' → StructOk (.document i cs) (.document i cs')
  | element {i : Nat} {t : String} {attrs attrs' : List (String × String)}
      {cs cs' : List SNode} :
      (∀ nm, nm ≠ "src" → nm ≠ "style" → nm ≠ "_cssText" →
        getAttr attrs' nm = getAttr attrs nm) →
      List.Forall₂ StructOk cs cs' →
      StructOk (.element i t attrs cs) (.element i t attrs' cs')
  | textStyle {i : Nat} {s s' : String} :
      StructOk (.text i s true) (.text i s' true)
  | textPlain {i : Nat} {s : String} : StructOk (.text i s false) (.text i s false)
  | documentType {i : Nat} {n p sy : String} :
      StructOk (.documentType i n p sy) (.documentType i n p sy)
  | cdata {i : Nat} {s : String} : StructOk (.cdata i s) (.cdata i s)
  | comment {i : Nat} {s : String} : StructOk (.comment i s) (.comment i s)

/- ### C9 support: texts without `url(` are fixed by `mapCssUrls` -/

/-- Does the text contain `url(` (case-insensitive) anywhere? -/
def hasUrlParen : List Char → Bool
  | u :: r :: l :: p :: rest =>
    (ciIs u 'u' 'U' && ciIs r 'r' 'R' && ciIs l 'l' 'L' && p == '(') ||
      hasUrlParen (r :: l :: p :: rest)
  | _ => false

/-- A source map whose image is a fixpoint: every mapped value, used as a
    key, maps to itself. -/
def FixpointMap (m : SMap) : Prop := ∀ p ∈ m, List.lookup p.2 m = some p.2

instance (m : SMap) : Decidable (FixpointMap m) :=
  inferInstanceAs (Decidable (∀ p ∈ m, List.lookup p.2 m = some p.2))

/-- The style texts reachable by the rewriter contain no `url(` token:
    truthy `style`/`_cssText` attribute values on Elements, and the content
    of style-flagged Text nodes. -/
inductive NoUrlTree : SNode → Prop where
  | document : ∀ (i : Nat) (cs : List SNode),
      (∀ c ∈ cs, NoUrlTree c) → NoUrlTree (.document i cs)
  | documentType : ∀ (i : Nat) (n p sy : String),
      NoUrlTree (.documentType i n p sy)
  | element : ∀ (i : Nat) (t : String) (attrs : List (String × String))
      (cs : List SNode),
      (∀ css, truthyAttr attrs "style" = some css →
        hasUrlParen css.toList = false) →
      (∀ css, truthyAttr attrs "_cssText" = some css →
        hasUrlParen css.toList = false) →
      (∀ c ∈ cs, NoUrlTree c) → NoUrlTree (.element i t attrs cs)
  | text : ∀ (i : Nat) (s : String) (b : Bool),
      (b = true → hasUrlParen s.toList = false) → NoUrlTree (.text i s b)
  | cdata : ∀ (i : Nat) (s : String), NoUrlTree (.cdata i s)
  | comment : ∀ (i : Nat) (s : String), NoUrlTree (.comment i s)

/-- The fixpoint map of the C9 counterexample: its image values map to
    themselves, yet one value smuggles a quote and a fresh `url(` occurrence
    into the rewritten style text. -/
def m9 : SMap :=
  [("t", "a'url(b)"), ("a'url(b)", "a'url(b)"), ("b", "c"), ("c", "c")]

/-- A style-flagged text node whose content the first pass rewrites. -/
def t9 : SNode := .text 1 "url(t)" true

/-- Concrete inputs for the C9 witness: an element carrying a mapped `src`
    and a `url(`-free style, with one plain text child. -/
def n9w : SNode :=
  .element 5 "img" [("src", "a.png"), ("style", "color: red")]
    [.text 6 "hello" false]

/-- The fixpoint map for the C9 witness. -/
def m9w : SMap := [("a.png", "archive/a.png"), ("archive/a.png", "archive/a.png")]

theorem matchUrlAt_pos {l : List Char} {n : Nat} {g : List Char}
    (h : matchUrlAt l = some (n, g)) : 0 < n := by
  match l with
  | [] => simp [matchUrlAt] at h
  | [a] => simp [matchUrlAt] at h
  | [a, b] => simp [matchUrlAt] at h
  | [a, b, c] => simp [matchUrlAt] at h
  | a :: b :: c :: d :: rest =>
    simp only [matchUrlAt] at h
    split at h
    · cases hm : matchTail rest with
      | none => rw [hm] at h; exact absurd h (by simp)
      | some p => rw [hm] at h; cases p with
        | mk n' g' => simp at h; omega
    · exact absurd h (by simp)

theorem segsFlatten_map_lit (l : List Char) :
    segsFlatten (l.map CssSeg.lit) = l := by
  induction l with
  | nil => rfl
  | cons c tl ih => simpa [segsFlatten, segText] using ih

theorem cssScanF_flatten (fuel : Nat) :
    ∀ l, segsFlatten (cssScanF fuel l) = l := by
  induction fuel with
  | zero => exact fun l => segsFlatten_map_lit l
  | succ fuel ih =>
    intro l
    cases l with
    | nil => rfl
    | cons c tl =>
      rw [cssScanF]
      cases hm : matchUrlAt (c :: tl) with
      | some p =>
        cases p with
        | mk n g =>
          simp only [hm]
          show ((c :: tl).take n) ++ segsFlatten (cssScanF fuel ((c :: tl).drop n)) =
            c :: tl
          rw [ih, List.take_append_drop]
      | none =>
        simp only [hm]
        show [c] ++ segsFlatten (cssScanF fuel tl) = c :: tl
        rw [ih]
        rfl

theorem cssScan_flatten (l : List Char) : segsFlatten (cssScan l) = l :=
  cssScanF_flatten l.length l

theorem mapNode_document (m : SMap) (i : Nat) (cs : List SNode) :
    mapNode m (.document i cs) = .document i (cs.map (mapNode m)) := by
  rw [mapNode]
  simp only [mapNodeAttributes, mapTextElement, List.attach_map_coe]

theorem mapNode_element (m : SMap) (i : Nat) (t : String)
    (attrs : List (String × String)) (cs : List SNode) :
    mapNode m (.element i t attrs cs) =
      .element i t (mapAttrs m attrs) (cs.map (mapNode m)) := by
  rw [mapNode]
  simp only [mapNodeAttributes, mapTextElement, List.attach_map_coe]

theorem mapNode_text (m : SMap) (i : Nat) (s : String) (b : Bool) :
    mapNode m (.text i s b) =
      (if b && !(s == "") then .text i (mapCssUrls m s) b else .text i s b) := by
  rw [mapNode] <;> simp [mapNodeAttributes, mapTextElement]

theorem mapNode_documentType (m : SMap) (i : Nat) (nm p sys : String) :
    mapNode m (.documentType i nm p sys) = .documentType i nm p sys := by
  rw [mapNode] <;> simp [mapNodeAttributes, mapTextElement]

theorem mapNode_cdata (m : SMap) (i : Nat) (s : String) :
    mapNode m (.cdata i s) = .cdata i s := by
  rw [mapNode] <;> simp [mapNodeAttributes, mapTextElement]

theorem mapNode_comment (m : SMap) (i : Nat) (s : String) :
    mapNode m (.comment i s) = .comment i s := by
  rw [mapNode] <;> simp [mapNodeAttributes, mapTextElement]

/- ### Idle lemmas -/

theorem idle_settled_stable (evs : List IdleEvent) (s : IdleState)
    (r : Except String Unit) (h : s.settled = some r) :
    (evs.foldl idleStep s).settled = some r := by
  induction evs generalizing s with
  | nil => exact h
  | cons e tl ih =>
    refine ih (idleStep s e) ?_
    cases e <;> simp only [idleStep] <;> split <;> simp [h, Option.orElse]

theorem idle_warned_stable (evs : List IdleEvent) (s : IdleState)
    (h : s.warned = true) : (evs.foldl idleStep s).warned = true := by
  induction evs generalizing s with
  | nil => exact h
  | cons e tl ih =>
    refine ih (idleStep s e) ?_
    cases e <;> simp only [idleStep] <;> split <;> simp [h]

theorem idle_settled_timer_cleared (evs : List IdleEvent) (s : IdleState)
    (h : s.settled.isSome → s.timerActive = false) :
    (evs.foldl idleStep s).settled.isSome →
      (evs.foldl idleStep s).timerActive = false := by
  induction evs generalizing s with
  | nil => exact h
  | cons e tl ih =>
    refine ih (idleStep s e) ?_
    cases e <;> simp only [idleStep] <;> split <;> first | simp | exact h

theorem idle_net_done_timer_cleared (evs : List IdleEvent) (s : IdleState)
    (h : s.netPending = false → s.timerActive = false) :
    (evs.foldl idleStep s).netPending = false →
      (evs.foldl idleStep s).timerActive = false := by
  induction evs generalizing s with
  | nil => exact h
  | cons e tl ih =>
    refine ih (idleStep s e) ?_
    cases e <;> simp only [idleStep] <;> split <;> simp_all

/-- C6: `idle` returns successfully as soon as whichever of the two branches
    settles first — whether the global timer fires first or the
    network-idle signal resolves first — and timer expiry logs the warning
    but produces a normal (`ok`) completion, never an error; in particular a
    history whose only settlement is the timer firing (a never-settling
    network-idle signal) completes normally. -/
theorem c6_idle_timeout_completes_successfully (evs : List IdleEvent) :
    ((runIdle (.timerFires :: evs)).settled = some (.ok ()) ∧
      (runIdle (.timerFires :: evs)).warned = true) ∧
    (runIdle (.netIdleResolves :: evs)).settled = some (.ok ()) := by
  refine ⟨⟨?_, ?_⟩, ?_⟩
  · exact idle_settled_stable evs _ _ rfl
  · exact idle_warned_stable evs _ rfl
  · exact idle_settled_stable evs _ _ rfl

/-- C7 (counterexample): the claim says the losing branch is actively
    cancelled in both directions; but when the global timer wins the race,
    the network-idle wait is not cancelled — after `idle` has returned it is
    still pending. -/
theorem c7_timer_win_leaves_net_wait_pending :
    (runIdle [.timerFires]).settled.isSome = true ∧
      (runIdle [.timerFires]).netPending = true := by
  exact ⟨rfl, rfl⟩

/-- C7 (amended): cancellation is one-directional.  Whenever the
    network-idle promise settles (resolve or reject, win or lose), its
    `finally` clears the timer; and once `idle` has returned (the race
    settled) the timer is never left pending — but a timer win does not
    cancel the network-idle wait, which may remain pending (see the
    counterexample), so at most that one wait can dangle. -/
theorem c7_amended_one_directional_cancellation (evs : List IdleEvent) :
    ((runIdle evs).settled.isSome → (runIdle evs).timerActive = false) ∧
    (runIdle (evs ++ [.netIdleResolves])).timerActive = false ∧
    (runIdle (evs ++ [.netIdleRejects])).timerActive = false := by
  refine ⟨idle_settled_timer_cleared evs _ (by simp [idleStart]), ?_, ?_⟩
  · rw [runIdle, List.foldl_append]
    simp only [List.foldl, idleStep]
    split
    · rfl
    · rename_i hnp
      exact idle_net_done_timer_cleared evs _ (by simp [idleStart])
        (by simpa using hnp)
  · rw [runIdle, List.foldl_append]
    simp only [List.foldl, idleStep]
    split
    · rfl
    · rename_i hnp
      exact idle_net_done_timer_cleared evs _ (by simp [idleStart])
        (by simpa using hnp)

/-- C7 (witness): a concrete run through the amended theorem: the
    network-idle signal resolves, the race is settled, and the timer has
    been cleared. -/
theorem c7_amended_witness :
    ((runIdle [IdleEvent.netIdleResolves]).settled.isSome = true) ∧
      (runIdle [IdleEvent.netIdleResolves]).timerActive = false :=
  ⟨rfl, (c7_amended_one_directional_cancellation [IdleEvent.netIdleResolves]).1 rfl⟩

/-- C10: on an event that reaches the capture branch (method matching
    `/get/i`, truthy status that is neither 304 nor a redirect, no truthy
    error reason, successful body fetch) the handler dereferences
    `responseHeaders` unconditionally; when that optional field is absent it
    throws instead of archiving or continuing: the invocation ends with an
    uncaught exception, the only command issued was the body fetch (no
    `continueRequest`), and the archive is untouched. -/
theorem c10_missing_response_headers_throws (cfg : WatcherCfg) (s : WatcherState)
    (ev : RPEvent) (oc : Outcomes) (code : Nat) (bres : BodyResult)
    (hget : hasGetSub ev.method.toList = true)
    (hsc : ev.responseStatusCode = some code)
    (h0 : code ≠ 0) (h304 : code ≠ 304)
    (hred : code ∉ [301, 302, 307, 308])
    (herr : truthyStr ev.responseErrorReason = false)
    (hbody : oc.bodyResult = .ok bres)
    (hhdr : ev.responseHeaders = none) :
    (requestPaused cfg s ev oc).thrown = some "TypeError: responseHeaders is undefined" ∧
    (requestPaused cfg s ev oc).cmds = [.getResponseBody ev.requestId] ∧
    (∀ u, (requestPaused cfg s ev oc).state.archive u = s.archive u) := by
  unfold requestPaused
  rw [hget]
  simp only [Bool.not_true, Bool.false_eq_true, if_false, hsc, Option.some.injEq,
    if_neg h304, herr, Bool.false_eq_true, if_false, truthyCode, Option.getD_some,
    hbody, hhdr, clientSendResult]
  rw [if_pos (by simp [h0]), if_neg hred]
  exact ⟨rfl, rfl, fun u => rfl⟩

/-- C10 (witness): a concrete capture-branch event with `responseHeaders`
    absent makes `requestPaused` throw. -/
theorem c10_missing_response_headers_throws_witness :
    hasGetSub "GET".toList = true ∧
    (requestPaused demoCfg initWatcher evNoHeaders ocOk).thrown =
      some "TypeError: responseHeaders is undefined" :=
  ⟨by decide,
    (c10_missing_response_headers_throws demoCfg initWatcher evNoHeaders ocOk 200
      ⟨"IMG", false⟩ (by decide) rfl (by decide) (by decide) (by decide) rfl rfl
      rfl).1⟩

theorem rp_nonGet (cfg : WatcherCfg) (s : WatcherState) (ev : RPEvent)
    (oc : Outcomes) (h : hasGetSub ev.method.toList = false) :
    requestPaused cfg s ev oc =
      ⟨(clientSendResult s ev.url oc.continueResult).1,
        [.continueRequest ev.requestId false],
        (clientSendResult s ev.url oc.continueResult).2.2, none⟩ := by
  unfold requestPaused
  rw [h]
  rfl

theorem rp_304 (cfg : WatcherCfg) (s : WatcherState) (ev : RPEvent)
    (oc : Outcomes) (hget : hasGetSub ev.method.toList = true)
    (hsc : ev.responseStatusCode = some 304) :
    requestPaused cfg s ev oc =
      ⟨(clientSendResult s ev.url oc.continueResult).1,
        [.continueRequest ev.requestId false],
        (clientSendResult s ev.url oc.continueResult).2.2, none⟩ := by
  unfold requestPaused
  rw [hget, hsc]
  rfl

theorem rp_errReason (cfg : WatcherCfg) (s : WatcherState) (ev : RPEvent)
    (oc : Outcomes) (hget : hasGetSub ev.method.toList = true)
    (h304 : ev.responseStatusCode ≠ some 304)
    (herr : truthyStr ev.responseErrorReason = true) :
    requestPaused cfg s ev oc =
      ⟨(clientSendResult (withFirst cfg s ev) ev.url oc.continueResult).1,
        [.continueRequest ev.requestId false],
        [infoLog cfg s ev, .responseError (ev.responseErrorReason.getD "")] ++
          (clientSendResult (withFirst cfg s ev) ev.url oc.continueResult).2.2,
        none⟩ := by
  unfold requestPaused
  rw [hget, if_neg h304, if_pos herr]
  rfl

theorem rp_redirect (cfg : WatcherCfg) (s : WatcherState) (ev : RPEvent)
    (oc : Outcomes) (code : Nat) (hget : hasGetSub ev.method.toList = true)
    (hsc : ev.responseStatusCode = some code) (h304 : code ≠ 304) (h0 : code ≠ 0)
    (herr : truthyStr ev.responseErrorReason = false)
    (hmem : code ∈ [301, 302, 307, 308]) :
    requestPaused cfg s ev oc =
      ⟨(clientSendResult (withFirst cfg s ev) ev.url oc.continueResult).1,
        [.continueRequest ev.requestId true],
        [infoLog cfg s ev] ++
          (clientSendResult (withFirst cfg s ev) ev.url oc.continueResult).2.2,
        none⟩ := by
  unfold requestPaused
  rw [hget, if_neg (show ¬(ev.responseStatusCode = some 304) by simp [hsc, h304]), if_neg (show ¬(truthyStr ev.responseErrorReason = true) by simp [herr]),
    if_pos (show truthyCode ev.responseStatusCode = true by simp [hsc, truthyCode, h0]),
    if_pos (show ev.responseStatusCode.getD 0 ∈ [301, 302, 307, 308] by
      rw [hsc]; simpa using hmem)]
  rfl

theorem rp_requestPhase (cfg : WatcherCfg) (s : WatcherState) (ev : RPEvent)
    (oc : Outcomes) (hget : hasGetSub ev.method.toList = true)
    (h304 : ev.responseStatusCode ≠ some 304)
    (herr : truthyStr ev.responseErrorReason = false)
    (hcode : truthyCode ev.responseStatusCode = false) :
    requestPaused cfg s ev oc =
      ⟨(clientSendResult (withFirst cfg s ev) ev.url oc.continueResult).1,
        [.continueRequest ev.requestId true],
        [infoLog cfg s ev] ++
          (clientSendResult (withFirst cfg s ev) ev.url oc.continueResult).2.2,
        none⟩ := by
  unfold requestPaused
  rw [hget, if_neg h304, if_neg (show ¬(truthyStr ev.responseErrorReason = true) by simp [herr]), if_neg (show ¬(truthyCode ev.responseStatusCode = true) by simp [hcode])]
  rfl

theorem rp_bodyFail (cfg : WatcherCfg) (s : WatcherState) (ev : RPEvent)
    (oc : Outcomes) (code : Nat) (e : String)
    (hget : hasGetSub ev.method.toList = true)
    (hsc : ev.responseStatusCode = some code) (h304 : code ≠ 304) (h0 : code ≠ 0)
    (herr : truthyStr ev.responseErrorReason = false)
    (hmem : code ∉ [301, 302, 307, 308])
    (hbody : oc.bodyResult = .error e) :
    requestPaused cfg s ev oc =
      ⟨{ withFirst cfg s ev with
          archive := updateArchive s.archive ev.url (.failed e) },
        [.getResponseBody ev.requestId],
        [infoLog cfg s ev] ++ [.clientError ev.url e], none⟩ := by
  unfold requestPaused
  rw [hget, if_neg (show ¬(ev.responseStatusCode = some 304) by simp [hsc, h304]), if_neg (show ¬(truthyStr ev.responseErrorReason = true) by simp [herr]),
    if_pos (show truthyCode ev.responseStatusCode = true by simp [hsc, truthyCode, h0]),
    if_neg (show ev.responseStatusCode.getD 0 ∉ [301, 302, 307, 308] by
      rw [hsc]; simpa using hmem), hbody]
  rfl

theorem rp_noHeaders (cfg : WatcherCfg) (s : WatcherState) (ev : RPEvent)
    (oc : Outcomes) (code : Nat) (bres : BodyResult)
    (hget : hasGetSub ev.method.toList = true)
    (hsc : ev.responseStatusCode = some code) (h304 : code ≠ 304) (h0 : code ≠ 0)
    (herr : truthyStr ev.responseErrorReason = false)
    (hmem : code ∉ [301, 302, 307, 308])
    (hbody : oc.bodyResult = .ok bres) (hhdr : ev.responseHeaders = none) :
    requestPaused cfg s ev oc =
      ⟨withFirst cfg s ev, [.getResponseBody ev.requestId],
        [infoLog cfg s ev] ++ [],
        some "TypeError: responseHeaders is undefined"⟩ := by
  unfold requestPaused
  rw [hget, if_neg (show ¬(ev.responseStatusCode = some 304) by simp [hsc, h304]), if_neg (show ¬(truthyStr ev.responseErrorReason = true) by simp [herr]),
    if_pos (show truthyCode ev.responseStatusCode = true by simp [hsc, truthyCode, h0]),
    if_neg (show ev.responseStatusCode.getD 0 ∉ [301, 302, 307, 308] by
      rw [hsc]; simpa using hmem), hbody, hhdr]
  rfl

theorem rp_capture (cfg : WatcherCfg) (s : WatcherState) (ev : RPEvent)
    (oc : Outcomes) (code : Nat) (bres : BodyResult) (hs : List HeaderEntry)
    (hget : hasGetSub ev.method.toList = true)
    (hsc : ev.responseStatusCode = some code) (h304 : code ≠ 304) (h0 : code ≠ 0)
    (herr : truthyStr ev.responseErrorReason = false)
    (hmem : code ∉ [301, 302, 307, 308])
    (hbody : oc.bodyResult = .ok bres) (hhdr : ev.responseHeaders = some hs) :
    requestPaused cfg s ev oc =
      (let s2 :=
        if captureGuard cfg s ev then
          { withFirst cfg s ev with
              archive := updateArchive s.archive ev.url (capturedOf ev bres hs) }
        else withFirst cfg s ev
      ⟨(clientSendResult s2 ev.url oc.continueResult).1,
        [.getResponseBody ev.requestId, .continueRequest ev.requestId false],
        [infoLog cfg s ev] ++ [] ++
          (clientSendResult s2 ev.url oc.continueResult).2.2, none⟩) := by
  unfold requestPaused
  rw [hget, if_neg (show ¬(ev.responseStatusCode = some 304) by simp [hsc, h304]), if_neg (show ¬(truthyStr ev.responseErrorReason = true) by simp [herr]),
    if_pos (show truthyCode ev.responseStatusCode = true by simp [hsc, truthyCode, h0]),
    if_neg (show ev.responseStatusCode.getD 0 ∉ [301, 302, 307, 308] by
      rw [hsc]; simpa using hmem), hbody, hhdr]
  rfl

/-- C3 (counterexample): the method check is `request.method.match(/get/i)`,
    a substring search; the non-GET method `BUDGET` contains `get` and is
    treated as a GET, so its 200 response is captured into the archive —
    refuting "any method string other than GET in any letter case never
    creates an archive entry". -/
theorem c3_budget_method_gets_captured :
    evBudget.method = "BUDGET" ∧
    (stepEvents demoCfg initWatcher [(evMain, ocOk), (evBudget, ocOk)]).archive
        "https://example.com/logo.png" =
      some (.captured 200 (some "OK") ⟨"IMG", false⟩ (some "image/png")) :=
  ⟨rfl, by decide⟩

/-- C3 (amended): for every event whose method does not contain `get` as a
    case-insensitive substring, the handler issues exactly one unmodified
    `continueRequest`, does not throw, leaves `firstUrl` alone, never
    creates a `Captured` entry, and the only possible archive write is a
    `Failed` entry under the event's URL when that continue fails. -/
theorem c3_amended_non_get_substring_no_capture (cfg : WatcherCfg)
    (s : WatcherState) (ev : RPEvent) (oc : Outcomes)
    (h : hasGetSub ev.method.toList = false) :
    (requestPaused cfg s ev oc).cmds = [.continueRequest ev.requestId false] ∧
    (requestPaused cfg s ev oc).thrown = none ∧
    (requestPaused cfg s ev oc).state.firstUrl = s.firstUrl ∧
    (∀ u, (requestPaused cfg s ev oc).state.archive u =
      match oc.continueResult with
      | .ok _ => s.archive u
      | .error e => if u = ev.url then some (.failed e) else s.archive u) ∧
    (∀ u sc st b ct,
      (requestPaused cfg s ev oc).state.archive u = some (.captured sc st b ct) →
        s.archive u = some (.captured sc st b ct)) := by
  rw [rp_nonGet cfg s ev oc h]
  refine ⟨rfl, rfl, ?_, fun u => ?_, fun u sc st b ct hu => ?_⟩
  · cases hc : oc.continueResult <;> simp [clientSendResult, hc]
  · cases hc : oc.continueResult <;> simp [clientSendResult, hc, updateArchive]
  · cases hc : oc.continueResult with
    | ok a => simpa [clientSendResult, hc] using hu
    | error e =>
      simp only [clientSendResult, hc] at hu
      by_cases he : u = ev.url
      · simp [updateArchive, he] at hu
      · simpa [updateArchive, he] using hu

/-- C3 (witness): a POST whose continue fails: a single unmodified continue
    was issued and a `Failed` entry was recorded under the POST's URL. -/
theorem c3_amended_witness :
    hasGetSub "POST".toList = false ∧
    (requestPaused demoCfg initWatcher evPost ocFailCont).cmds =
      [.continueRequest "r9" false] ∧
    (requestPaused demoCfg initWatcher evPost ocFailCont).state.archive
      "https://example.com/api" = some (.failed "net::ERR_ABORTED") := by
  refine ⟨by decide, ?_, ?_⟩
  · exact (c3_amended_non_get_substring_no_capture demoCfg initWatcher evPost
      ocFailCont (by decide)).1
  · have h := (c3_amended_non_get_substring_no_capture demoCfg initWatcher evPost
      ocFailCont (by decide)).2.2.2.1 "https://example.com/api"
    simpa [ocFailCont, evPost] using h

/-- C4 (counterexample): a GET answered 301 whose `continueRequest` fails
    does produce an archive entry at the redirect hop (the `Failed` entry
    `clientSend` records), refuting "no archive entry is produced at that
    hop". -/
theorem c4_redirect_failing_continue_creates_entry :
    evRedirect.responseStatusCode = some 301 ∧
    (stepEvents demoCfg initWatcher [(evRedirect, ocFailCont)]).archive
      "https://example.com/" = some (.failed "net::ERR_ABORTED") :=
  ⟨rfl, by decide⟩

/-- C4 (amended): for a `/get/i`-matching event with no truthy error reason
    and status 301/302/307/308, the handler issues exactly one
    `continueRequest` with `interceptResponse: true` (requesting a second
    pause at the terminal response), does not throw, initializes `firstUrl`
    if unset, and never creates a `Captured` entry at the hop — the only
    possible archive write being a `Failed` entry under the event's URL when
    the continue command fails. -/
theorem c4_amended_redirect_defers_with_intercept (cfg : WatcherCfg)
    (s : WatcherState) (ev : RPEvent) (oc : Outcomes) (code : Nat)
    (hget : hasGetSub ev.method.toList = true)
    (hsc : ev.responseStatusCode = some code)
    (hred : code ∈ [301, 302, 307, 308])
    (herr : truthyStr ev.responseErrorReason = false) :
    (requestPaused cfg s ev oc).cmds = [.continueRequest ev.requestId true] ∧
    (requestPaused cfg s ev oc).thrown = none ∧
    (requestPaused cfg s ev oc).state.firstUrl =
      some (s.firstUrl.getD (cfg.parse ev.url)) ∧
    (∀ u, (requestPaused cfg s ev oc).state.archive u =
      match oc.continueResult with
      | .ok _ => s.archive u
      | .error e => if u = ev.url then some (.failed e) else s.archive u) ∧
    (∀ u sc st b ct,
      (requestPaused cfg s ev oc).state.archive u = some (.captured sc st b ct) →
        s.archive u = some (.captured sc st b ct)) := by
  have hcases : code = 301 ∨ code = 302 ∨ code = 307 ∨ code = 308 := by
    simpa using hred
  have h304 : code ≠ 304 := by rcases hcases with h | h | h | h <;> omega
  have h0 : code ≠ 0 := by rcases hcases with h | h | h | h <;> omega
  rw [rp_redirect cfg s ev oc code hget hsc h304 h0 herr hred]
  refine ⟨rfl, rfl, ?_, fun u => ?_, fun u sc st b ct hu => ?_⟩
  · cases hc : oc.continueResult <;> simp [clientSendResult, hc, withFirst]
  · cases hc : oc.continueResult <;>
      simp [clientSendResult, hc, updateArchive, withFirst]
  · cases hc : oc.continueResult with
    | ok a => simpa [clientSendResult, hc, withFirst] using hu
    | error e =>
      simp only [clientSendResult, hc] at hu
      by_cases he : u = ev.url
      · simp [updateArchive, withFirst, he] at hu
      · simpa [updateArchive, withFirst, he] using hu

/-- C4 (witness): a concrete 301 with a successful continue: the single
    command issued is a continue with `interceptResponse: true` and the
    archive is untouched at the hop. -/
theorem c4_amended_witness :
    evRedirect.responseStatusCode = some 301 ∧
    (requestPaused demoCfg initWatcher evRedirect ocOk).cmds =
      [.continueRequest "r1" true] ∧
    (requestPaused demoCfg initWatcher evRedirect ocOk).state.archive
      "https://example.com/" = none := by
  refine ⟨rfl, ?_, ?_⟩
  · exact (c4_amended_redirect_defers_with_intercept demoCfg initWatcher evRedirect
      ocOk 301 (by decide) rfl (by decide) rfl).1
  · have h := (c4_amended_redirect_defers_with_intercept demoCfg initWatcher
      evRedirect ocOk 301 (by decide) rfl (by decide) rfl).2.2.2.1
      "https://example.com/"
    simpa [ocOk, initWatcher] using h

/-- C2: if any remote-client command issued while resolving an exchange
    fails, the Watcher logs a `Client error` line for the exchange's URL,
    records a `Failed{error}` archive entry under that URL, and abandons the
    exchange without affecting anything else: no command is issued twice (no
    retry), every issued command addresses this exchange only, no other
    URL's archive entry changes, and no exception propagates to the caller. -/
theorem c2_client_failure_recorded_and_contained (cfg : WatcherCfg)
    (s : WatcherState) (ev : RPEvent) (oc : Outcomes)
    (hfail : ∃ c ∈ (requestPaused cfg s ev oc).cmds, cmdFailed oc c = true) :
    (∃ e, (requestPaused cfg s ev oc).state.archive ev.url = some (.failed e) ∧
      LogEntry.clientError ev.url e ∈ (requestPaused cfg s ev oc).logs) ∧
    (∀ u, u ≠ ev.url → (requestPaused cfg s ev oc).state.archive u = s.archive u) ∧
    (requestPaused cfg s ev oc).cmds.Nodup ∧
    (∀ c ∈ (requestPaused cfg s ev oc).cmds, cmdReqId c = ev.requestId) ∧
    (requestPaused cfg s ev oc).thrown = none := by
  by_cases hget : hasGetSub ev.method.toList = true
  case neg =>
    rw [rp_nonGet cfg s ev oc (by simpa using hget)] at hfail ⊢
    cases hc : oc.continueResult with
    | ok a => simp [cmdFailed, hc] at hfail
    | error e =>
      refine ⟨⟨e, ?_, ?_⟩, fun u hu => ?_, by simp, by simp [cmdReqId], rfl⟩
      · simp [clientSendResult, hc, updateArchive]
      · simp [clientSendResult, hc]
      · simp [clientSendResult, hc, updateArchive, hu]
  case pos =>
  by_cases h304 : ev.responseStatusCode = some 304
  · rw [rp_304 cfg s ev oc hget h304] at hfail ⊢
    cases hc : oc.continueResult with
    | ok a => simp [cmdFailed, hc] at hfail
    | error e =>
      refine ⟨⟨e, ?_, ?_⟩, fun u hu => ?_, by simp, by simp [cmdReqId], rfl⟩
      · simp [clientSendResult, hc, updateArchive]
      · simp [clientSendResult, hc]
      · simp [clientSendResult, hc, updateArchive, hu]
  by_cases herr : truthyStr ev.responseErrorReason = true
  · rw [rp_errReason cfg s ev oc hget h304 herr] at hfail ⊢
    cases hc : oc.continueResult with
    | ok a => simp [cmdFailed, hc] at hfail
    | error e =>
      refine ⟨⟨e, ?_, ?_⟩, fun u hu => ?_, by simp, by simp [cmdReqId], rfl⟩
      · simp [clientSendResult, hc, updateArchive]
      · simp [clientSendResult, hc]
      · simp [clientSendResult, hc, updateArchive, withFirst, hu]
  replace herr : truthyStr ev.responseErrorReason = false := by simpa using herr
  by_cases hcode : truthyCode ev.responseStatusCode = true
  case neg =>
    rw [rp_requestPhase cfg s ev oc hget h304 herr (by simpa using hcode)]
      at hfail ⊢
    cases hc : oc.continueResult with
    | ok a => simp [cmdFailed, hc] at hfail
    | error e =>
      refine ⟨⟨e, ?_, ?_⟩, fun u hu => ?_, by simp, by simp [cmdReqId], rfl⟩
      · simp [clientSendResult, hc, updateArchive]
      · simp [clientSendResult, hc]
      · simp [clientSendResult, hc, updateArchive, withFirst, hu]
  case pos =>
  obtain ⟨code, hsc, h0⟩ :
      ∃ code, ev.responseStatusCode = some code ∧ code ≠ 0 := by
    cases hv : ev.responseStatusCode with
    | none => rw [hv] at hcode; simp [truthyCode] at hcode
    | some n =>
      rw [hv] at hcode
      simp only [truthyCode, Bool.not_eq_true', beq_eq_false_iff_ne] at hcode
      exact ⟨n, rfl, hcode⟩
  have h304' : code ≠ 304 := fun h => h304 (by rw [hsc, h])
  by_cases hmem : code ∈ [301, 302, 307, 308]
  · rw [rp_redirect cfg s ev oc code hget hsc h304' h0 herr hmem] at hfail ⊢
    cases hc : oc.continueResult with
    | ok a => simp [cmdFailed, hc] at hfail
    | error e =>
      refine ⟨⟨e, ?_, ?_⟩, fun u hu => ?_, by simp, by simp [cmdReqId], rfl⟩
      · simp [clientSendResult, hc, updateArchive]
      · simp [clientSendResult, hc]
      · simp [clientSendResult, hc, updateArchive, withFirst, hu]
  cases hbody : oc.bodyResult with
  | error e =>
    rw [rp_bodyFail cfg s ev oc code e hget hsc h304' h0 herr hmem hbody] at hfail ⊢
    refine ⟨⟨e, ?_, ?_⟩, fun u hu => ?_, by simp, by simp [cmdReqId], rfl⟩
    · simp [updateArchive]
    · simp
    · simp [updateArchive, withFirst, hu]
  | ok bres =>
    cases hhdr : ev.responseHeaders with
    | none =>
      rw [rp_noHeaders cfg s ev oc code bres hget hsc h304' h0 herr hmem hbody hhdr]
        at hfail
      simp [cmdFailed, hbody] at hfail
    | some hs =>
      rw [rp_capture cfg s ev oc code bres hs hget hsc h304' h0 herr hmem hbody hhdr]
        at hfail ⊢
      cases hc : oc.continueResult with
      | ok a => simp [cmdFailed, hc, hbody] at hfail
      | error e =>
        refine ⟨⟨e, ?_, ?_⟩, fun u hu => ?_, by simp, by simp [cmdReqId], rfl⟩
        · simp [clientSendResult, hc, updateArchive]
        · simp [clientSendResult, hc]
        · by_cases hg : captureGuard cfg s ev = true <;>
            simp [clientSendResult, hc, updateArchive, withFirst, hg, hu]

/-- C2 (witness): a GET whose body fetch fails: the handler records a
    `Failed` entry under the exchange's URL and logs the client error. -/
theorem c2_client_failure_witness :
    (∃ c ∈ (requestPaused demoCfg initWatcher evLogo ocFailBody).cmds,
        cmdFailed ocFailBody c = true) ∧
    ∃ e, (requestPaused demoCfg initWatcher evLogo ocFailBody).state.archive
        evLogo.url = some (.failed e) ∧
      LogEntry.clientError evLogo.url e ∈
        (requestPaused demoCfg initWatcher evLogo ocFailBody).logs :=
  ⟨by decide, (c2_client_failure_recorded_and_contained demoCfg initWatcher evLogo
      ocFailBody (by decide)).1⟩

/- ### The per-step archive/firstUrl specification, for the C1 invariant -/

theorem rp_step_spec (cfg : WatcherCfg) (s : WatcherState) (ev : RPEvent)
    (oc : Outcomes) :
    (∀ f, s.firstUrl = some f →
      (requestPaused cfg s ev oc).state.firstUrl = some f) ∧
    (∀ u, (requestPaused cfg s ev oc).state.archive u = s.archive u ∨
      (u = ev.url ∧
        ((∃ e, (requestPaused cfg s ev oc).state.archive u = some (.failed e)) ∨
          (∃ sc st b ct,
            (requestPaused cfg s ev oc).state.archive u =
              some (.captured sc st b ct) ∧
            ∃ f, (requestPaused cfg s ev oc).state.firstUrl = some f ∧
              ((cfg.parse u).origin = f.origin ∨
                (cfg.parse u).origin ∈ cfg.allowedOrigins) ∧
              (cfg.parse u).normalized ≠ f.normalized)))) := by
  by_cases hget : hasGetSub ev.method.toList = true
  case neg =>
    rw [rp_nonGet cfg s ev oc (by simpa using hget)]
    cases hc : oc.continueResult with
    | ok a => exact ⟨fun f hf => hf, fun u => Or.inl rfl⟩
    | error e =>
      refine ⟨fun f hf => by simpa [clientSendResult] using hf, fun u => ?_⟩
      by_cases hu : u = ev.url
      · exact Or.inr ⟨hu, Or.inl ⟨e, by simp [clientSendResult, updateArchive, hu]⟩⟩
      · exact Or.inl (by simp [clientSendResult, updateArchive, hu])
  case pos =>
  by_cases h304 : ev.responseStatusCode = some 304
  · rw [rp_304 cfg s ev oc hget h304]
    cases hc : oc.continueResult with
    | ok a => exact ⟨fun f hf => hf, fun u => Or.inl rfl⟩
    | error e =>
      refine ⟨fun f hf => by simpa [clientSendResult] using hf, fun u => ?_⟩
      by_cases hu : u = ev.url
      · exact Or.inr ⟨hu, Or.inl ⟨e, by simp [clientSendResult, updateArchive, hu]⟩⟩
      · exact Or.inl (by simp [clientSendResult, updateArchive, hu])
  have hfirst : ∀ f, s.firstUrl = some f →
      (withFirst cfg s ev).firstUrl = some f := by
    intro f hf; simp [withFirst, hf]
  by_cases herr : truthyStr ev.responseErrorReason = true
  · rw [rp_errReason cfg s ev oc hget h304 herr]
    cases hc : oc.continueResult with
    | ok a => exact ⟨fun f hf => hfirst f hf, fun u => Or.inl rfl⟩
    | error e =>
      refine ⟨fun f hf => by simpa [clientSendResult] using hfirst f hf, fun u => ?_⟩
      by_cases hu : u = ev.url
      · exact Or.inr ⟨hu, Or.inl ⟨e, by simp [clientSendResult, updateArchive, hu]⟩⟩
      · exact Or.inl (by simp [clientSendResult, updateArchive, withFirst, hu])
  replace herr : truthyStr ev.responseErrorReason = false := by simpa using herr
  by_cases hcode : truthyCode ev.responseStatusCode = true
  case neg =>
    rw [rp_requestPhase cfg s ev oc hget h304 herr (by simpa using hcode)]
    cases hc : oc.continueResult with
    | ok a => exact ⟨fun f hf => hfirst f hf, fun u => Or.inl rfl⟩
    | error e =>
      refine ⟨fun f hf => by simpa [clientSendResult] using hfirst f hf, fun u => ?_⟩
      by_cases hu : u = ev.url
      · exact Or.inr ⟨hu, Or.inl ⟨e, by simp [clientSendResult, updateArchive, hu]⟩⟩
      · exact Or.inl (by simp [clientSendResult, updateArchive, withFirst, hu])
  case pos =>
  obtain ⟨code, hsc, h0⟩ :
      ∃ code, ev.responseStatusCode = some code ∧ code ≠ 0 := by
    cases hv : ev.responseStatusCode with
    | none => rw [hv] at hcode; simp [truthyCode] at hcode
    | some n =>
      rw [hv] at hcode
      simp only [truthyCode, Bool.not_eq_true', beq_eq_false_iff_ne] at hcode
      exact ⟨n, rfl, hcode⟩
  have h304' : code ≠ 304 := fun h => h304 (by rw [hsc, h])
  by_cases hmem : code ∈ [301, 302, 307, 308]
  · rw [rp_redirect cfg s ev oc code hget hsc h304' h0 herr hmem]
    cases hc : oc.continueResult with
    | ok a => exact ⟨fun f hf => hfirst f hf, fun u => Or.inl rfl⟩
    | error e =>
      refine ⟨fun f hf => by simpa [clientSendResult] using hfirst f hf, fun u => ?_⟩
      by_cases hu : u = ev.url
      · exact Or.inr ⟨hu, Or.inl ⟨e, by simp [clientSendResult, updateArchive, hu]⟩⟩
      · exact Or.inl (by simp [clientSendResult, updateArchive, withFirst, hu])
  cases hbody : oc.bodyResult with
  | error e =>
    rw [rp_bodyFail cfg s ev oc code e hget hsc h304' h0 herr hmem hbody]
    refine ⟨fun f hf => by simpa using hfirst f hf, fun u => ?_⟩
    by_cases hu : u = ev.url
    · exact Or.inr ⟨hu, Or.inl ⟨e, by simp [updateArchive, hu]⟩⟩
    · exact Or.inl (by simp [updateArchive, withFirst, hu])
  | ok bres =>
    cases hhdr : ev.responseHeaders with
    | none =>
      rw [rp_noHeaders cfg s ev oc code bres hget hsc h304' h0 herr hmem hbody hhdr]
      exact ⟨fun f hf => hfirst f hf, fun u => Or.inl rfl⟩
    | some hsl =>
      rw [rp_capture cfg s ev oc code bres hsl hget hsc h304' h0 herr hmem hbody hhdr]
      by_cases hg : captureGuard cfg s ev = true
      case neg =>
        rw [if_neg hg]
        cases hc : oc.continueResult with
        | ok a => exact ⟨fun f hf => hfirst f hf, fun u => Or.inl rfl⟩
        | error e =>
          refine ⟨fun f hf => by simpa [clientSendResult] using hfirst f hf,
            fun u => ?_⟩
          by_cases hu : u = ev.url
          · exact Or.inr ⟨hu, Or.inl ⟨e, by simp [clientSendResult, updateArchive, hu]⟩⟩
          · exact Or.inl (by simp [clientSendResult, updateArchive, withFirst, hu])
      case pos =>
        rw [if_pos hg]
        have hguard := hg
        rw [captureGuard, Bool.and_eq_true, Bool.not_eq_true', beq_eq_false_iff_ne]
          at hguard
        obtain ⟨hallow, hne⟩ := hguard
        rw [allowedB, Bool.or_eq_true, beq_iff_eq] at hallow
        cases hc : oc.continueResult with
        | ok a =>
          refine ⟨fun f hf => hfirst f hf, fun u => ?_⟩
          by_cases hu : u = ev.url
          · refine Or.inr ⟨hu, Or.inr ?_⟩
            refine ⟨ev.responseStatusCode.getD 0, ev.responseStatusText,
              ⟨bres.body, bres.base64Encoded⟩,
              ((hsl.find? (fun h => h.name.toList.map Char.toLower ==
                "content-type".toList)).map (fun h => h.value)), ?_,
              s.firstUrl.getD (cfg.parse ev.url), ?_, ?_, ?_⟩
            · simp [clientSendResult, updateArchive, capturedOf, hu, withFirst]
            · simp [clientSendResult, withFirst]
            · subst hu
              rcases hallow with h | h
              · exact Or.inl h
              · exact Or.inr (by simpa using h)
            · subst hu; exact hne
          · exact Or.inl (by simp [clientSendResult, updateArchive, withFirst, hu])
        | error e =>
          refine ⟨fun f hf => by simpa [clientSendResult] using hfirst f hf,
            fun u => ?_⟩
          by_cases hu : u = ev.url
          · exact Or.inr ⟨hu, Or.inl ⟨e, by simp [clientSendResult, updateArchive, hu]⟩⟩
          · exact Or.inl (by simp [clientSendResult, updateArchive, withFirst, hu])

/-- C1 (counterexample): the URL that initialized `firstUrl` can be present
    as an archive key: when a remote command fails while resolving the very
    first exchange, `clientSend` records a `Failed` entry under the first
    URL — refuting "the URL that initialized firstUrl is never present as an
    archive key" and the unrestricted origin claim (a `Failed` entry needs
    no allowed origin). -/
theorem c1_firsturl_can_become_archive_key :
    (stepEvents demoCfg initWatcher [(evMain, ocFailBody)]).firstUrl =
      some ⟨"https://example.com", "https://example.com/"⟩ ∧
    (stepEvents demoCfg initWatcher [(evMain, ocFailBody)]).archive
      "https://example.com/" = some (.failed "No resource with given identifier") :=
  ⟨by decide, by decide⟩

/-- C1 (amended): after any sequence of `requestPaused` events, a
    **Captured** archive entry exists for a URL only if that URL's origin
    equals `firstUrl`'s origin or is among the constructor-derived
    `allowedArchiveOrigins`, and the URL's normalized form differs from
    `firstUrl`'s; `Failed` entries, by contrast, may be recorded for any URL
    whose exchange hit a failing remote command, including the first URL
    itself. -/
theorem c1_amended_captured_entries_origin_guarded (cfg : WatcherCfg)
    (events : List (RPEvent × Outcomes)) (u : String) (sc : Nat)
    (st : Option String) (b : Buf) (ct : Option String)
    (h : (stepEvents cfg initWatcher events).archive u =
      some (.captured sc st b ct)) :
    ∃ f, (stepEvents cfg initWatcher events).firstUrl = some f ∧
      ((cfg.parse u).origin = f.origin ∨
        (cfg.parse u).origin ∈ cfg.allowedOrigins) ∧
      (cfg.parse u).normalized ≠ f.normalized := by
  suffices hgen : ∀ (evs : List (RPEvent × Outcomes)) (s : WatcherState),
      (∀ u' sc' st' b' ct', s.archive u' = some (.captured sc' st' b' ct') →
        ∃ f, s.firstUrl = some f ∧
          ((cfg.parse u').origin = f.origin ∨
            (cfg.parse u').origin ∈ cfg.allowedOrigins) ∧
          (cfg.parse u').normalized ≠ f.normalized) →
      ∀ u' sc' st' b' ct',
        (stepEvents cfg s evs).archive u' = some (.captured sc' st' b' ct') →
        ∃ f, (stepEvents cfg s evs).firstUrl = some f ∧
          ((cfg.parse u').origin = f.origin ∨
            (cfg.parse u').origin ∈ cfg.allowedOrigins) ∧
          (cfg.parse u').normalized ≠ f.normalized by
    exact hgen events initWatcher (by intro u' sc' st' b' ct' hu; cases hu) u sc st b ct h
  intro evs
  induction evs with
  | nil => intro s hs; exact hs
  | cons p tl ih =>
    intro s hs
    refine ih (requestPaused cfg s p.1 p.2).state ?_
    intro u' sc' st' b' ct' hu
    obtain ⟨hfirst, harch⟩ := rp_step_spec cfg s p.1 p.2
    rcases harch u' with heq | ⟨hu'eq, hfl | hcap⟩
    · rw [heq] at hu
      obtain ⟨f, hf, horig, hnorm⟩ := hs u' sc' st' b' ct' hu
      exact ⟨f, hfirst f hf, horig, hnorm⟩
    · obtain ⟨e, he⟩ := hfl
      rw [he] at hu
      cases hu
    · obtain ⟨sc2, st2, b2, ct2, harch2, f, hf, horig, hnorm⟩ := hcap
      exact ⟨f, hf, horig, hnorm⟩

/-- C1 (witness): a concrete session — main page then a same-origin logo —
    produces a Captured entry for the logo, whose origin matches `firstUrl`
    and whose URL differs from it. -/
theorem c1_amended_witness :
    (stepEvents demoCfg initWatcher [(evMain, ocOk), (evLogo, ocOk)]).archive
        "https://example.com/logo.png" =
      some (.captured 200 (some "OK") ⟨"IMG", false⟩ (some "image/png")) ∧
    ∃ f, (stepEvents demoCfg initWatcher
        [(evMain, ocOk), (evLogo, ocOk)]).firstUrl = some f ∧
      ((demoCfg.parse "https://example.com/logo.png").origin = f.origin ∨
        (demoCfg.parse "https://example.com/logo.png").origin ∈
          demoCfg.allowedOrigins) ∧
      (demoCfg.parse "https://example.com/logo.png").normalized ≠ f.normalized :=
  ⟨by decide,
    c1_amended_captured_entries_origin_guarded demoCfg [(evMain, ocOk), (evLogo, ocOk)]
      "https://example.com/logo.png" 200 (some "OK") ⟨"IMG", false⟩
      (some "image/png") (by decide)⟩

/- ### C5 support lemmas -/

theorem getSubst_no_dollar (matched pre post : List Char) :
    ∀ repl : List Char, '$' ∉ repl → getSubst matched pre post repl = repl
  | [], _ => rfl
  | c :: tl, h => by
    have hc : c ≠ '$' := fun hcc => h (by simp [hcc])
    have htl : '$' ∉ tl := fun hm => h (List.mem_cons_of_mem _ hm)
    rw [getSubst.eq_def]
    split
    · rename_i heq
      exact (List.cons_ne_nil c tl heq).elim
    · rename_i c2 tl2 heq
      exact absurd (List.cons.inj heq).1 hc
    · rename_i c3 tl3 hno heq
      obtain ⟨rfl, rfl⟩ := List.cons.inj heq
      rw [getSubst_no_dollar matched pre post tl htl]

theorem cssSegsJoin_lits (m : SMap) (l : List Char) :
    cssSegsJoin m (l.map CssSeg.lit) = l := by
  induction l with
  | nil => rfl
  | cons c tl ih => simpa [cssSegsJoin] using ih

theorem mapCssUrls_no_match (m : SMap) (s : String)
    (h : cssScan s.toList = s.toList.map CssSeg.lit) : mapCssUrls m s = s := by
  rw [mapCssUrls, h, cssSegsJoin_lits]
  cases s
  rfl

theorem cssSegsJoin_empty_map (segs : List CssSeg) :
    cssSegsJoin [] segs = segsFlatten segs := by
  induction segs with
  | nil => rfl
  | cons sg tl ih => cases sg <;> simp [cssSegsJoin, segsFlatten, segText,
      cssCallback, List.lookup, ih]

theorem mapCssUrls_empty_map (s : String) : mapCssUrls [] s = s := by
  rw [mapCssUrls, cssSegsJoin_empty_map, cssScan_flatten]
  cases s
  rfl

theorem cssCallback_not_in_map (m : SMap) (full g : List Char)
    (h : List.lookup (String.mk g) m = none) : cssCallback m full g = full := by
  rw [cssCallback, h]

theorem cssCallback_canonical (m : SMap) (g v : String)
    (hlook : List.lookup g m = some v) (hnd : '$' ∉ v.toList)
    (hidx : listFirstIdx ("url('".toList ++ g.toList ++ "')".toList) g.toList =
      some 5) :
    cssCallback m ("url('".toList ++ g.toList ++ "')".toList) g.toList =
      "url('".toList ++ v.toList ++ "')".toList := by
  have hkey : String.mk g.toList = g := by cases g; rfl
  rw [cssCallback, hkey, hlook]
  have h5 : (5 : Nat) = "url('".toList.length := by decide
  have hassoc : "url('".toList ++ g.toList ++ "')".toList =
      ("url('".toList ++ g.toList) ++ "')".toList := by
    rw [List.append_assoc]
  have htake : ("url('".toList ++ g.toList ++ "')".toList).take 5 =
      "url('".toList := by
    rw [h5, List.take_append_of_le_length (by simp)]
    simp
  have hdroplen : (5 + g.toList.length) =
      ("url('".toList ++ g.toList).length := by simp; omega
  have hdrop : ("url('".toList ++ g.toList ++ "')".toList).drop
      (5 + g.toList.length) = "')".toList := by
    rw [hassoc, hdroplen, List.drop_left]
  simp only [replaceFirstJS, hidx, htake, hdrop]
  rw [getSubst_no_dollar _ _ _ v.toList hnd]

/-- C5 (counterexample): the replacer runs `match.replace(fullUrl, mapped)`,
    a first-occurrence substring replacement inside the matched span, not a
    replacement of the captured token at its own position: for the token `u`
    and map `u → X`, the input `url(u)` yields `Xrl(u)` — the first `u` of
    the span is the one in `url(` — and not the claimed `url(X)`. -/
theorem c5_replace_hits_first_occurrence :
    mapCssUrls [("u", "X")] "url(u)" = "Xrl(u)" ∧
    mapCssUrls [("u", "X")] "url(u)" ≠ "url(X)" :=
  ⟨by decide, by decide⟩

/-- C5 (amended): the CSS-URL substitution (a) never matches an occurrence
    whose token starts with `data:` — such a text is returned unchanged for
    every map; (b') on the spec's example, and in general whenever the
    token's first occurrence inside the matched span is at its own position
    and the mapped value has no `$`, only the token is replaced and the
    quoting style is preserved; (c) an occurrence whose token is not in the
    map is kept whole, and an empty map leaves any text unchanged; and the
    `url(` token is matched case-insensitively.  (In general the replacement
    targets the first occurrence of the token inside the span — see the
    counterexample.) -/
theorem c5_amended_css_url_substitution :
    (∀ m : SMap, mapCssUrls m "url(data:image/png;base64,AAAA)" =
      "url(data:image/png;base64,AAAA)") ∧
    mapCssUrls [("http://x/a.png", "./archive/a.png")]
      "background: url('http://x/a.png')" =
      "background: url('./archive/a.png')" ∧
    mapCssUrls [("k", "v")] "URL('k')" = "URL('v')" ∧
    (∀ (m : SMap) (full g : List Char),
      List.lookup (String.mk g) m = none → cssCallback m full g = full) ∧
    (∀ s : String, mapCssUrls [] s = s) ∧
    (∀ (m : SMap) (g v : String),
      List.lookup g m = some v → '$' ∉ v.toList →
      listFirstIdx ("url('".toList ++ g.toList ++ "')".toList) g.toList = some 5 →
      cssCallback m ("url('".toList ++ g.toList ++ "')".toList) g.toList =
        "url('".toList ++ v.toList ++ "')".toList) := by
  refine ⟨?_, by decide, by decide, cssCallback_not_in_map, mapCssUrls_empty_map,
    cssCallback_canonical⟩
  intro m
  exact mapCssUrls_no_match m _ (by decide)

/-- C5 (witness): the amended theorem at concrete inputs: a map never
    touches the `data:` payload, the spec's example rewrites with the quote
    style intact, an unmapped token is kept whole, and the canonical
    replacement applies to the example's token and mapped value. -/
theorem c5_amended_witness :
    mapCssUrls [("a", "b")] "url(data:image/png;base64,AAAA)" =
      "url(data:image/png;base64,AAAA)" ∧
    cssCallback [] "url(x)".toList "x".toList = "url(x)".toList ∧
    mapCssUrls [] "plain text url('q')" = "plain text url('q')" ∧
    cssCallback [("http://x/a.png", "./archive/a.png")]
        ("url('".toList ++ "http://x/a.png".toList ++ "')".toList)
        "http://x/a.png".toList =
      "url('".toList ++ "./archive/a.png".toList ++ "')".toList := by
  refine ⟨c5_amended_css_url_substitution.1 [("a", "b")],
    c5_amended_css_url_substitution.2.2.2.1 [] "url(x)".toList "x".toList
      (by decide),
    c5_amended_css_url_substitution.2.2.2.2.1 "plain text url('q')",
    c5_amended_css_url_substitution.2.2.2.2.2 [("http://x/a.png", "./archive/a.png")]
      "http://x/a.png" "./archive/a.png" (by decide) (by decide) (by decide)⟩

/- ### C8: structural equivalence of the rewrite -/

theorem getAttr_setAttr_ne :
    ∀ (attrs : List (String × String)) (n v k : String), k ≠ n →
      getAttr (setAttr attrs n v) k = getAttr attrs k
  | [], n, v, k, h => by
    have hf : (k == n) = false := beq_eq_false_iff_ne.mpr h
    simp [setAttr, getAttr, List.lookup, hf]
  | (k1, v1) :: tl, n, v, k, h => by
    by_cases hk : k1 == n
    · have hkn : k1 = n := by simpa using hk
      have hf : (k == k1) = false := beq_eq_false_iff_ne.mpr (by rw [hkn]; exact h)
      simp [setAttr, hk, getAttr, List.lookup, hf]
    · by_cases hk2 : k1 == k
      · have hke : k1 = k := by simpa using hk2
        subst hke
        simp [setAttr, hk, getAttr, List.lookup]
      · have hf : (k == k1) = false := beq_eq_false_iff_ne.mpr
          (fun hc => hk2 (by simp [hc]))
        simp only [setAttr, hk, Bool.false_eq_true, if_false]
        simp only [getAttr, List.lookup, hf]
        exact getAttr_setAttr_ne tl n v k h

theorem getAttr_mapSrcAttr_ne (m : SMap) (attrs : List (String × String))
    (nm : String) (h : nm ≠ "src") :
    getAttr (mapSrcAttr m attrs) nm = getAttr attrs nm := by
  cases hsv : truthyAttr attrs "src" with
  | none => simp [mapSrcAttr, hsv]
  | some sourceVal =>
    cases hl : List.lookup sourceVal m with
    | none => simp [mapSrcAttr, hsv, hl]
    | some v =>
      simp only [mapSrcAttr, hsv, hl]
      exact getAttr_setAttr_ne attrs "src" v nm h

theorem getAttr_mapCssAttr_ne (m : SMap) (key : String)
    (attrs : List (String × String)) (nm : String) (h : nm ≠ key) :
    getAttr (mapCssAttr m key attrs) nm = getAttr attrs nm := by
  cases hcv : truthyAttr attrs key with
  | none => simp [mapCssAttr, hcv]
  | some cssText =>
    simp only [mapCssAttr, hcv]
    exact getAttr_setAttr_ne attrs key _ nm h

theorem getAttr_mapAttrs_other (m : SMap) (attrs : List (String × String))
    (nm : String) (h1 : nm ≠ "src") (h2 : nm ≠ "style") (h3 : nm ≠ "_cssText") :
    getAttr (mapAttrs m attrs) nm = getAttr attrs nm := by
  rw [mapAttrs, getAttr_mapCssAttr_ne m _ _ nm h3, getAttr_mapCssAttr_ne m _ _ nm h2,
    getAttr_mapSrcAttr_ne m _ nm h1]

theorem forall₂_map_self {R : SNode → SNode → Prop} (f : SNode → SNode) :
    ∀ l : List SNode, (∀ c ∈ l, R c (f c)) → List.Forall₂ R l (l.map f)
  | [], _ => List.Forall₂.nil
  | c :: tl, h =>
    List.Forall₂.cons (h c (by simp))
      (forall₂_map_self f tl (fun c hc => h c (List.mem_cons_of_mem _ hc)))

/-- C8: the Rewriter returns a structurally equivalent tree: every node
    keeps its identifier, kind, tag name and ordered child shape; only the
    `src`/`style`/`_cssText` attributes of Element nodes and the text of
    style-flagged Text nodes can change. -/
theorem c8_mapNode_structurally_equivalent (m : SMap) :
    ∀ n : SNode, StructOk n (mapNode m n)
  | .document i cs => by
    rw [mapNode_document]
    exact .document (forall₂_map_self _ cs
      (fun c hc => c8_mapNode_structurally_equivalent m c))
  | .element i t attrs cs => by
    rw [mapNode_element]
    exact .element (fun nm h1 h2 h3 => getAttr_mapAttrs_other m attrs nm h1 h2 h3)
      (forall₂_map_self _ cs (fun c hc => c8_mapNode_structurally_equivalent m c))
  | .text i s b => by
    rw [mapNode_text]
    cases b with
    | true =>
      by_cases hs : (s == "") = true <;> simp [hs] <;> exact .textStyle
    | false => simpa using StructOk.textPlain
  | .documentType i n p sy => by
    rw [mapNode_documentType]
    exact .documentType
  | .cdata i s => by
    rw [mapNode_cdata]
    exact .cdata
  | .comment i s => by
    rw [mapNode_comment]
    exact .comment
termination_by n => sizeOf n
decreasing_by
  all_goals exact Nat.lt_trans (List.sizeOf_lt_of_mem hc) (by simp)

theorem hasUrlParen_tail : ∀ (c : Char) (tl : List Char),
    hasUrlParen (c :: tl) = false → hasUrlParen tl = false
  | _, [], _ => rfl
  | _, [_], _ => rfl
  | _, [_, _], _ => rfl
  | c, a :: b :: d :: rest, h => by
    rw [hasUrlParen] at h
    exact (Bool.or_eq_false_iff.mp h).2

theorem matchUrlAt_none_of_no_url :
    ∀ l : List Char, hasUrlParen l = false → matchUrlAt l = none
  | [], _ => rfl
  | [_], _ => rfl
  | [_, _], _ => rfl
  | [_, _, _], _ => rfl
  | a :: b :: c :: d :: rest, h => by
    rw [hasUrlParen] at h
    have h1 := (Bool.or_eq_false_iff.mp h).1
    rw [matchUrlAt]
    cases hA : ciIs a 'u' 'U' <;> cases hB : ciIs b 'r' 'R' <;>
      cases hC : ciIs c 'l' 'L' <;> cases hD : d == '(' <;> simp_all

theorem cssScanF_no_url (fuel : Nat) :
    ∀ l : List Char, hasUrlParen l = false → cssScanF fuel l = l.map CssSeg.lit := by
  induction fuel with
  | zero => intro l _; rfl
  | succ fuel ih =>
    intro l h
    cases l with
    | nil => rfl
    | cons c tl =>
      rw [cssScanF, matchUrlAt_none_of_no_url (c :: tl) h]
      rw [ih tl (hasUrlParen_tail c tl h)]
      rfl

theorem mapCssUrls_no_url (m : SMap) (s : String)
    (h : hasUrlParen s.toList = false) : mapCssUrls m s = s :=
  mapCssUrls_no_match m s (cssScanF_no_url s.toList.length s.toList h)

/- ### C9 support: attribute-step idempotence -/

theorem getAttr_setAttr_self :
    ∀ (attrs : List (String × String)) (k v : String),
      getAttr (setAttr attrs k v) k = some v
  | [], k, v => by simp [setAttr, getAttr, List.lookup]
  | (k1, v1) :: tl, k, v => by
    by_cases hk : k1 == k
    · have : k1 = k := by simpa using hk
      subst this
      simp [setAttr, getAttr, List.lookup]
    · have hf : (k == k1) = false := beq_eq_false_iff_ne.mpr
        (fun hc => hk (by simp [hc]))
      simp only [setAttr, hk, Bool.false_eq_true, if_false, getAttr, List.lookup, hf]
      exact getAttr_setAttr_self tl k v

theorem setAttr_self :
    ∀ (attrs : List (String × String)) (k v : String),
      getAttr attrs k = some v → setAttr attrs k v = attrs
  | [], k, v, h => by simp [getAttr, List.lookup] at h
  | (k1, v1) :: tl, k, v, h => by
    by_cases hk : k1 == k
    · have hke : k1 = k := by simpa using hk
      subst hke
      simp only [getAttr, List.lookup, beq_self_eq_true] at h
      obtain rfl := Option.some.inj h
      simp [setAttr]
    · have hf : (k == k1) = false := beq_eq_false_iff_ne.mpr
        (fun hc => hk (by simp [hc]))
      simp only [getAttr, List.lookup, hf, Bool.false_eq_true, if_false] at h
      have hf2 : (k1 == k) = false := by simpa using hk
      simp only [setAttr, hf2, Bool.false_eq_true, if_false]
      rw [setAttr_self tl k v h]

theorem truthyAttr_some {attrs : List (String × String)} {k v : String}
    (h : truthyAttr attrs k = some v) :
    getAttr attrs k = some v ∧ (v == "") = false := by
  rw [truthyAttr] at h
  cases hg : getAttr attrs k with
  | none => rw [hg] at h; cases h
  | some w =>
    rw [hg] at h
    have h2 : (if (w == "") = true then none else some w) = some v := h
    by_cases hw : (w == "") = true
    · rw [if_pos hw] at h2; cases h2
    · rw [if_neg hw] at h2
      obtain rfl := Option.some.inj h2
      exact ⟨rfl, by simpa using hw⟩

theorem truthyAttr_congr {a b : List (String × String)} {k : String}
    (h : getAttr a k = getAttr b k) : truthyAttr a k = truthyAttr b k := by
  rw [truthyAttr, truthyAttr, h]

theorem mem_of_lookup_eq_some :
    ∀ (l : List (String × String)) (a b : String),
      List.lookup a l = some b → (a, b) ∈ l
  | [], a, b, h => by cases h
  | (k1, v1) :: tl, a, b, h => by
    by_cases hk : (a == k1) = true
    · have : a = k1 := by simpa using hk
      subst this
      simp only [List.lookup, beq_self_eq_true] at h
      obtain rfl := Option.some.inj h
      exact List.mem_cons_self _ _
    · have hf : (a == k1) = false := by simpa using hk
      simp only [List.lookup, hf, Bool.false_eq_true, if_false] at h
      exact List.mem_cons_of_mem _ (mem_of_lookup_eq_some tl a b h)

theorem mapCssAttr_no_url (m : SMap) (key : String)
    (attrs : List (String × String))
    (h : ∀ css, truthyAttr attrs key = some css → hasUrlParen css.toList = false) :
    mapCssAttr m key attrs = attrs := by
  cases hc : truthyAttr attrs key with
  | none => simp [mapCssAttr, hc]
  | some css =>
    simp only [mapCssAttr, hc]
    rw [mapCssUrls_no_url m css (h css hc)]
    exact setAttr_self attrs key css (truthyAttr_some hc).1

theorem mapSrcAttr_of_truthy_none (m : SMap) (attrs : List (String × String))
    (h : truthyAttr attrs "src" = none) : mapSrcAttr m attrs = attrs := by
  simp [mapSrcAttr, h]

theorem mapSrcAttr_of_lookup_none (m : SMap) (attrs : List (String × String))
    (s : String) (h : truthyAttr attrs "src" = some s)
    (hl : List.lookup s m = none) : mapSrcAttr m attrs = attrs := by
  simp [mapSrcAttr, h, hl]

theorem mapSrcAttr_idem (m : SMap) (attrs : List (String × String))
    (hfix : FixpointMap m) :
    mapSrcAttr m (mapSrcAttr m attrs) = mapSrcAttr m attrs := by
  cases hsv : truthyAttr attrs "src" with
  | none =>
    rw [mapSrcAttr_of_truthy_none m attrs hsv, mapSrcAttr_of_truthy_none m attrs hsv]
  | some s =>
    cases hl : List.lookup s m with
    | none =>
      rw [mapSrcAttr_of_lookup_none m attrs s hsv hl,
        mapSrcAttr_of_lookup_none m attrs s hsv hl]
    | some v =>
      have hA1 : mapSrcAttr m attrs = setAttr attrs "src" v := by
        simp [mapSrcAttr, hsv, hl]
      rw [hA1]
      have hget : getAttr (setAttr attrs "src" v) "src" = some v :=
        getAttr_setAttr_self attrs "src" v
      by_cases hv : (v == "") = true
      · have htr : truthyAttr (setAttr attrs "src" v) "src" = none := by
          simp only [truthyAttr, hget]
          rw [if_pos hv]
        exact mapSrcAttr_of_truthy_none m _ htr
      · have htr : truthyAttr (setAttr attrs "src" v) "src" = some v := by
          simp only [truthyAttr, hget]
          rw [if_neg hv]
        have hlv : List.lookup v m = some v :=
          hfix (s, v) (mem_of_lookup_eq_some m s v hl)
        simp only [mapSrcAttr, htr, hlv]
        exact setAttr_self _ "src" v hget

theorem mapAttrs_idem (m : SMap) (attrs : List (String × String))
    (hfix : FixpointMap m)
    (hstyle : ∀ css, truthyAttr attrs "style" = some css →
      hasUrlParen css.toList = false)
    (hcss : ∀ css, truthyAttr attrs "_cssText" = some css →
      hasUrlParen css.toList = false) :
    mapAttrs m (mapAttrs m attrs) = mapAttrs m attrs := by
  have hA1style : ∀ css, truthyAttr (mapSrcAttr m attrs) "style" = some css →
      hasUrlParen css.toList = false := by
    intro css h
    exact hstyle css (by
      rwa [truthyAttr_congr (getAttr_mapSrcAttr_ne m attrs "style" (by decide))] at h)
  have hA1css : ∀ css, truthyAttr (mapSrcAttr m attrs) "_cssText" = some css →
      hasUrlParen css.toList = false := by
    intro css h
    exact hcss css (by
      rwa [truthyAttr_congr (getAttr_mapSrcAttr_ne m attrs "_cssText" (by decide))] at h)
  have hred : mapAttrs m attrs = mapSrcAttr m attrs := by
    rw [mapAttrs, mapCssAttr_no_url m "style" _ hA1style,
      mapCssAttr_no_url m "_cssText" _ hA1css]
  rw [hred, mapAttrs, mapSrcAttr_idem m attrs hfix,
    mapCssAttr_no_url m "style" _ hA1style, mapCssAttr_no_url m "_cssText" _ hA1css]

/-- C9 (amended): for a fixpoint source map, the rewrite is idempotent on
    every snapshot tree whose style texts contain no `url(` token; without
    that proviso idempotence fails even for fixpoint maps (see the
    counterexample). -/
theorem c9_amended_fixpoint_rewrite_idempotent (m : SMap) (hfix : FixpointMap m) :
    ∀ n : SNode, NoUrlTree n → mapNode m (mapNode m n) = mapNode m n
  | .document i cs, h => by
    cases h with
    | document _ _ hcs =>
      rw [mapNode_document, mapNode_document, List.map_map]
      refine congrArg (SNode.document i) (List.map_congr_left ?_)
      intro c hc
      exact c9_amended_fixpoint_rewrite_idempotent m hfix c (hcs c hc)
  | .element i t attrs cs, h => by
    cases h with
    | element _ _ _ _ hstyle hcss hcs =>
      rw [mapNode_element, mapNode_element, List.map_map,
        mapAttrs_idem m attrs hfix hstyle hcss]
      refine congrArg (SNode.element i t (mapAttrs m attrs)) (List.map_congr_left ?_)
      intro c hc
      exact c9_amended_fixpoint_rewrite_idempotent m hfix c (hcs c hc)
  | .text i s b, h => by
    cases h with
    | text _ _ _ hs =>
      cases b with
      | false => rw [mapNode_text]; simp [mapNode_text]
      | true =>
        by_cases hse : (s == "") = true
        · rw [mapNode_text, if_neg (by simp [hse]), mapNode_text,
            if_neg (by simp [hse])]
        · rw [mapNode_text, if_pos (by simp [hse]),
            mapCssUrls_no_url m s (hs rfl), mapNode_text, if_pos (by simp [hse]),
            mapCssUrls_no_url m s (hs rfl)]
  | .documentType i n p sy, _ => by
    rw [mapNode_documentType, mapNode_documentType]
  | .cdata i s, _ => by rw [mapNode_cdata, mapNode_cdata]
  | .comment i s, _ => by rw [mapNode_comment, mapNode_comment]
termination_by n => sizeOf n
decreasing_by
  all_goals
    subst_vars
    exact Nat.lt_trans (List.sizeOf_lt_of_mem hc) (by simp)

/-- C9 (counterexample): with the fixpoint map `m9`, one pass turns the
    style text `url(t)` into `url(a'url(b))`; the quote makes the outer span
    unmatchable on the second pass, which then matches the inner `url(b)`
    and rewrites it to `url(c)` — the second pass differs from the first, so
    rewriting twice is not the same as rewriting once. -/
theorem c9_fixpoint_map_not_idempotent :
    FixpointMap m9 ∧ mapNode m9 (mapNode m9 t9) ≠ mapNode m9 t9 := by
  refine ⟨by decide, ?_⟩
  have h1 : mapCssUrls m9 "url(t)" = "url(a'url(b))" := by decide
  have h2 : mapCssUrls m9 "url(a'url(b))" = "url(a'url(c))" := by decide
  have e1 : mapNode m9 t9 = .text 1 "url(a'url(b))" true := by
    rw [t9, mapNode_text, if_pos (by decide), h1]
  have e2 : mapNode m9 (.text 1 "url(a'url(b))" true) =
      .text 1 "url(a'url(c))" true := by
    rw [mapNode_text, if_pos (by decide), h2]
  rw [e1, e2]
  intro hcontra
  injection hcontra with h1' h2' h3'
  exact absurd h2' (by decide)

/-- C9 (witness): the amended theorem applied to the concrete element above:
    both hypotheses hold there and the rewrite is idempotent on it. -/
theorem c9_amended_witness :
    FixpointMap m9w ∧ mapNode m9w (mapNode m9w n9w) = mapNode m9w n9w := by
  have hfix : FixpointMap m9w := by decide
  refine ⟨hfix, c9_amended_fixpoint_rewrite_idempotent m9w hfix n9w ?_⟩
  refine NoUrlTree.element 5 "img" _ _ ?_ ?_ ?_
  · intro css h
    have : truthyAttr [("src", "a.png"), ("style", "color: red")] "style" =
        some "color: red" := by decide
    rw [this] at h
    obtain rfl := Option.some.inj h
    decide
  · intro css h
    have : truthyAttr [("src", "a.png"), ("style", "color: red")] "_cssText" =
        none := by decide
    rw [this] at h
    cases h
  · intro c hc
    obtain rfl := List.mem_singleton.mp hc
    exact NoUrlTree.text 6 "hello" false (fun h => by cases h)
